import Mathlib

/-!
# Tubely upload handlers: a shallow embedding

The development follows `handler_upload_video.go` and `handler_upload_thumbnail.go`.

* Floating point: `float64` values are carried as exact rationals together with
  `NaN` and the two infinities; every arithmetic operation computes the exact
  rational result and rounds it to the nearest binary64 value, ties to even
  (53 bits of precision, gradual underflow below `2^-1022`, overflow to infinity).
  The sign of a zero is not recorded: the only zero that is ever a divisor here is
  `float64(0)`, which is `+0`, and a zero result is only compared or subtracted from.
* Collaborators (identity service, metadata store, multipart reader, external
  processes, object store, random source) are calls whose outcome is supplied by an
  environment `Env`; every call the handlers make on the local file system, the
  metadata store and the object store is appended to a trace and applied to an
  explicit `World`.
* A Go run-time panic is an outcome of its own.
* Strings are sequences of Unicode characters (Go strings that are valid UTF-8); the
  library functions called on them (`path.Base`, `strings.Split`, `mime.ParseMediaType`,
  `base64.RawURLEncoding`, `filepath.Join`) are written out character by character.
-/

namespace Tubely

/-! ## binary64 arithmetic -/

/-- A `float64`: not-a-number, an infinity with its sign, or a finite value. -/
inductive F64 where
  | nan
  | inf (neg : Bool)
  | fin (q : ℚ)
deriving DecidableEq

namespace F64

/-- Nearest natural number to `n / d`, ties to the even one. -/
def roundHalfEven (n d : ℕ) : ℕ :=
  if 2 * (n % d) < d then n / d
  else if d < 2 * (n % d) then n / d + 1
  else if (n / d) % 2 = 0 then n / d else n / d + 1

/-- Number of binary digits of `n`, counted with at most `fuel` halvings. -/
def bitLen : ℕ → ℕ → ℕ
  | 0, _ => 0
  | fuel + 1, n => if n = 0 then 0 else bitLen fuel (n / 2) + 1

/-- Position of the leading binary digit of `n` (and `0` for `n = 0`). -/
def ilog2 (n : ℕ) : ℕ := bitLen n n - 1

/-- The binade of the positive rational `n / d`: the `e` with `2^e ≤ n / d < 2^(e+1)`. -/
def floorLog2 (n d : ℕ) : ℤ :=
  let k : ℤ := (ilog2 n : ℤ) - (ilog2 d : ℤ)
  if d * 2 ^ k.toNat ≤ n * 2 ^ (-k).toNat then k else k - 1

/-- Exponent of the unit in the last place used for `n / d`: 52 below the binade,
but never below the subnormal quantum `2^-1074`. -/
def quantum (n d : ℕ) : ℤ := max (floorLog2 n d - 52) (-1074)

/-- The significand (in units of `2^quantum`) of the binary64 nearest to `n / d`. -/
def significand (n d : ℕ) : ℕ :=
  roundHalfEven (n * 2 ^ (-(quantum n d)).toNat) (d * 2 ^ (quantum n d).toNat)

/-- Round the positive rational `n / d` to binary64; `none` is overflow. -/
def roundPos (n d : ℕ) : Option ℚ :=
  if significand n d * 2 ^ (quantum n d).toNat < 2 ^ 1024 * 2 ^ (-(quantum n d)).toNat then
    some (((significand n d * 2 ^ (quantum n d).toNat : ℕ) : ℚ)
      / ((2 ^ (-(quantum n d)).toNat : ℕ) : ℚ))
  else none

/-- Round an exact rational result to binary64 (nearest, ties to even). -/
def round (q : ℚ) : F64 :=
  if q = 0 then fin 0
  else match roundPos q.num.natAbs q.den with
    | some v => fin (if q < 0 then -v else v)
    | none => inf (decide (q < 0))

/-- The conversion `float64(i)` of an integer. -/
def ofInt (i : ℤ) : F64 := round (i : ℚ)

/-- The quotient `x / y`. Dividing by zero gives an infinity, `0 / 0` gives `NaN`
(Go does not panic on a floating-point division by zero). -/
def div : F64 → F64 → F64
  | fin a, fin b =>
    if b = 0 then (if a = 0 then nan else inf (decide (a < 0))) else round (a / b)
  | fin _, inf _ => fin 0
  | inf s, fin b => inf (xor s (decide (b < 0)))
  | _, _ => nan

/-- The difference `x - y`. -/
def sub : F64 → F64 → F64
  | fin a, fin b => round (a - b)
  | fin _, inf s => inf (!s)
  | inf s, fin _ => inf s
  | inf s, inf s' => if s = s' then nan else inf s
  | _, _ => nan

/-- The function `math.Abs`. -/
def abs : F64 → F64
  | nan => nan
  | inf _ => inf false
  | fin a => fin |a|

/-- The comparison `x <= y`; it is false as soon as one side is `NaN`. -/
def le : F64 → F64 → Bool
  | fin a, fin b => decide (a ≤ b)
  | fin _, inf s => !s
  | inf s, fin _ => s
  | inf s, inf s' => s || !s'
  | _, _ => false

end F64

/-! ## Constants of `handler_upload_video.go` -/

/-- The constant `AspectRatio16_9 float64 = 16.0 / 9.0`: the exact quotient, rounded. -/
def AspectRatio16_9 : F64 := F64.round (16 / 9)

/-- The constant `AspectRatio9_16 float64 = 9.0 / 16.0`. -/
def AspectRatio9_16 : F64 := F64.round (9 / 16)

/-- The constant `tolerance = 0.01`, converted to `float64` where it is compared. -/
def tolerance : F64 := F64.round (1 / 100)

/-- The label `Landscape`. -/
def Landscape : String := "16:9"

/-- The label `Portrait`. -/
def Portrait : String := "9:16"

/-- The label `Other`. -/
def Other : String := "other"

/-- A Go `error` value; only its presence matters to the handlers. -/
abbrev Err := String

deriving instance DecidableEq for Except

/-! ## The geometry prober -/

/-- One entry of `FFProbeResult.Streams`; a missing JSON field decodes as `0`. -/
structure Stream where
  Width : ℤ
  Height : ℤ
deriving DecidableEq

/-- What running `ffprobe` and decoding its output gives. -/
inductive ProbeRun where
  | runError
  | badJSON
  | parsed (streams : List Stream)

/-- The switch at the end of `getVideoAspectRatio`, on the first stream's dimensions. -/
def aspectLabel (width height : ℤ) : String :=
  if F64.le (F64.abs (F64.sub (F64.div (F64.ofInt width) (F64.ofInt height)) AspectRatio16_9))
      tolerance then Landscape
  else if F64.le
      (F64.abs (F64.sub (F64.div (F64.ofInt width) (F64.ofInt height)) AspectRatio9_16))
      tolerance then Portrait
  else Other

/-- The function `getVideoAspectRatio`, given the outcome of the `ffprobe` run. -/
def getVideoAspectRatio (probe : ProbeRun) : Except Err String :=
  match probe with
  | .runError => .error "exit status"
  | .badJSON => .error "invalid JSON"
  | .parsed [] => .error "unable to process video"
  | .parsed (s :: _) => .ok (aspectLabel s.Width s.Height)

/-- The `switch aspectRatio` of `handlerUploadVideo` that picks the key's first segment. -/
def orientation (aspectRatio : String) : String :=
  if aspectRatio = "16:9" then "landscape"
  else if aspectRatio = "9:16" then "portrait"
  else "other"

/-! ## Library functions the handlers call on strings -/

/-- The function `path.Base`: the last element of a slash-separated path, trailing
slashes removed; `.` for the empty path and `/` for a path of slashes only. -/
def pathBase (p : String) : String :=
  if p = "" then "."
  else if ((p.toList.reverse.dropWhile (· = '/')).takeWhile (· ≠ '/')) = [] then "/"
  else String.mk ((p.toList.reverse.dropWhile (· = '/')).takeWhile (· ≠ '/')).reverse

/-- Pieces of a character list between the occurrences of `sep`. -/
def splitChars (sep : Char) : List Char → List (List Char)
  | [] => [[]]
  | c :: cs =>
    if c = sep then [] :: splitChars sep cs
    else match splitChars sep cs with
      | [] => [[c]]
      | x :: xs => (c :: x) :: xs

/-- The call `strings.Split(s, sep)` for a one-character separator: always at least
one piece, and one piece more than there are separators. -/
def stringsSplit (s : String) (sep : Char) : List String :=
  (splitChars sep s.toList).map String.mk

/-- The alphabet of `base64.RawURLEncoding`. -/
def urlAlphabet : List Char :=
  "ABCDEFGHIJKLMNOPQRSTUVWXYZabcdefghijklmnopqrstuvwxyz0123456789-_".toList

/-- The character that encodes a six-bit group. -/
def b64Char (n : ℕ) : Char := urlAlphabet.getD (n % 64) 'A'

/-- The function `base64.RawURLEncoding.EncodeToString` on a list of bytes: three bytes
give four characters, a remainder of one or two bytes gives two or three, no padding. -/
def encodeChars : List ℕ → List Char
  | a :: b :: c :: rest =>
    b64Char (a % 256 / 4) :: b64Char (a % 4 * 16 + b % 256 / 16)
      :: b64Char (b % 16 * 4 + c % 256 / 64) :: b64Char (c % 64) :: encodeChars rest
  | [a, b] =>
    [b64Char (a % 256 / 4), b64Char (a % 4 * 16 + b % 256 / 16), b64Char (b % 16 * 4)]
  | [a] => [b64Char (a % 256 / 4), b64Char (a % 4 * 16)]
  | [] => []

/-- The string form of `encodeChars`. -/
def EncodeToString (bytes : List ℕ) : String := String.mk (encodeChars bytes)

/-- The predicate `unicode.IsSpace`, by code point: the ASCII white space, `U+0085`,
`U+00A0` and the space separators `U+1680`, `U+2000` to `U+200A`, `U+2028`, `U+2029`,
`U+202F`, `U+205F`, `U+3000`. -/
def isSpace (c : Char) : Bool :=
  (0x09 ≤ c.toNat && c.toNat ≤ 0x0d) || c.toNat = 0x20 || c.toNat = 0x85 || c.toNat = 0xa0
    || c.toNat = 0x1680 || (0x2000 ≤ c.toNat && c.toNat ≤ 0x200a)
    || c.toNat = 0x2028 || c.toNat = 0x2029 || c.toNat = 0x202f || c.toNat = 0x205f
    || c.toNat = 0x3000

/-- The function `strings.TrimSpace`. -/
def TrimSpace (s : List Char) : List Char :=
  ((s.dropWhile isSpace).reverse.dropWhile isSpace).reverse

/-- Lower case of one rune as `strings.ToLower` computes it, for every rune whose lower
case is an ASCII character (the ASCII capitals, `U+0130` and the Kelvin sign). Any other
rune outside ASCII is left as it is: its lower case is outside ASCII too, so it is not a
token character before or after. -/
def toLowerRune (c : Char) : Char :=
  if c.toNat = 0x130 then 'i' else if c.toNat = 0x212a then 'k' else c.toLower

/-- The predicate `isTSpecial` of package `mime`. -/
def isTSpecial (c : Char) : Bool := "()<>@,;:\\\"/[]?=".toList.contains c

/-- The predicate `isTokenChar` of package `mime`. -/
def isTokenChar (c : Char) : Bool := 0x20 < c.toNat && c.toNat < 0x7f && !isTSpecial c

/-- The function `consumeToken` of package `mime`: the longest prefix of token
characters, and what follows it. -/
def consumeToken (v : List Char) : List Char × List Char :=
  (v.takeWhile isTokenChar, v.dropWhile isTokenChar)

/-- The function `checkMediaTypeDisposition` of package `mime`: `true` when the string
is a token, or a token, a slash and a token. -/
def checkMediaTypeDisposition (s : List Char) : Bool :=
  if (consumeToken s).1 = [] then false
  else match (consumeToken s).2 with
    | [] => true
    | c :: rest =>
      if c ≠ '/' then false
      else if (consumeToken rest).1 = [] then false
      else decide ((consumeToken rest).2 = [])

/-- The media type and the error of `mime.ParseMediaType`. The media type is the text
before the first `;`, in lower case, white space trimmed, and must pass
`checkMediaTypeDisposition`. Only a value with a `;` has a parameter section; whether
the library's parameter loop rejects that section is the flag `paramsErr`. -/
def ParseMediaType (paramsErr : Bool) (v : String) : Except Err String :=
  if checkMediaTypeDisposition (TrimSpace ((v.toList.takeWhile (· ≠ ';')).map toLowerRune))
  then
    if v.toList.contains ';' && paramsErr then .error "mime: invalid media parameter"
    else .ok (String.mk (TrimSpace ((v.toList.takeWhile (· ≠ ';')).map toLowerRune)))
  else .error "mime: no media type"

/-- Lexical elements kept by `filepath.Clean`: empty elements and `.` are dropped, `..`
removes the element before it, is dropped at the root, and is kept otherwise. The stack
is held in reverse. -/
def cleanElems (rooted : Bool) : List (List Char) → List (List Char) → List (List Char)
  | acc, [] => acc.reverse
  | acc, e :: es =>
    if e = [] ∨ e = ['.'] then cleanElems rooted acc es
    else if e = ['.', '.'] then
      match acc with
      | [] => if rooted then cleanElems rooted [] es else cleanElems rooted [e] es
      | a :: as =>
        if a = ['.', '.'] then cleanElems rooted (e :: a :: as) es
        else cleanElems rooted as es
    else cleanElems rooted (e :: acc) es

/-- The function `filepath.Clean` with `/` as the separator. -/
def filepathClean (p : String) : String :=
  let rooted := p.toList.head? = some '/'
  let body := String.mk (List.intercalate ['/'] (cleanElems rooted [] (splitChars '/' p.toList)))
  if rooted then "/" ++ body else if body = "" then "." else body

/-- The call `filepath.Join(dir, name)`: empty elements are ignored, the rest is joined
with `/` and cleaned. -/
def filepathJoin (dir name : String) : String :=
  if dir = "" ∧ name = "" then ""
  else if dir = "" then filepathClean name
  else if name = "" then filepathClean dir
  else filepathClean (dir ++ "/" ++ name)

/-! ## Records, responses, the world and the collaborators -/

/-- Modelled from the spec: the record `database.Video` (package `internal/database` is
not among the sources), with the fields of the data model: `id`, `ownerID`,
`thumbnailRef`, `videoRef`. The two references are Go `*string`, absent when `nil`. -/
structure Video where
  ID : ℕ
  UserID : ℕ
  ThumbnailURL : Option String
  VideoURL : Option String
deriving DecidableEq

/-- The fields of `apiConfig` the two handlers read. -/
structure apiConfig where
  s3Bucket : String
  assetsRoot : String
  port : String
  jwtSecret : String

/-- Modelled from the spec: what `respondWithError` and `respondWithJSON` (file
`json.go`, not among the sources) send, a status code with a message or with the
record; `aborted` is a handler that panicked before writing a response. -/
inductive Response where
  | error (code : ℕ) (msg : String)
  | json (code : ℕ) (video : Video)
  | aborted
deriving DecidableEq

/-- The status code of a response, if one was written. -/
def Response.status : Response → Option ℕ
  | .error code _ => some code
  | .json code _ => some code
  | .aborted => none

/-- The constant `http.StatusOK`. -/
def StatusOK : ℕ := 200

/-- The constant `http.StatusBadRequest`. -/
def StatusBadRequest : ℕ := 400

/-- The constant `http.StatusUnauthorized`. -/
def StatusUnauthorized : ℕ := 401

/-- The constant `http.StatusInternalServerError`. -/
def StatusInternalServerError : ℕ := 500

/-- The constant `time.Minute`, a `time.Duration` in nanoseconds. -/
def Minute : ℕ := 60 * 1000000000

/-- A call a handler makes on the file system, an external process, the object store
or the metadata store, with its arguments. -/
inductive Event where
  | GetVideo (id : ℕ)
  | CreateTemp (name : String)
  | Copy (dst : String)
  | ffprobe (file : String)
  | ffmpeg (input output : String)
  | Open (name : String)
  | PutObject (bucket key body contentType : String)
  | UpdateVideo (video : Video)
  | Remove (name : String)
  | Create (name : String)
deriving DecidableEq

/-- The state the handlers act on: the set of paths on the local file system, the
records of the metadata store, and the calls made so far, oldest first. -/
structure World where
  files : List String
  videos : List Video
  trace : List Event

/-- Append a call to the trace. -/
def World.log (w : World) (e : Event) : World := { w with trace := w.trace ++ [e] }

/-- A path appears on the file system. -/
def World.addFile (w : World) (name : String) : World :=
  { w with files := name :: w.files }

/-- The call `os.Remove(name)` on the set of paths. -/
def World.removeFile (w : World) (name : String) : World :=
  { w with files := w.files.filter (· ≠ name), trace := w.trace ++ [Event.Remove name] }

/-- Modelled from the spec: `db.UpdateVideo` (package `internal/database` is not among
the sources) persists the record under its `id`; a failed call leaves the store as it
was. -/
def World.updateVideo (w : World) (failed : Bool) (video : Video) : World :=
  { w with
    videos := if failed then w.videos
      else w.videos.map (fun v => if v.ID = video.ID then video else v),
    trace := w.trace ++ [Event.UpdateVideo video] }

/-- How the `ffmpeg` run of `processVideoForFastStart` ended; a failed run may or may
not leave an output file behind. -/
inductive FfmpegRun where
  | ok
  | failed (outputLeft : Bool)

/-- The outcome of every collaborator call of one request. -/
structure Env where
  uuidParse : Except Err ℕ
  GetBearerToken : Except Err String
  ValidateJWT : Except Err ℕ
  GetVideo : Except Err Video
  ParseMultipartFormErr : Bool
  FormFile : Except Err String
  mediaParamsErr : Bool
  CreateTemp : Except Err String
  CopyErr : Bool
  ffprobe : ProbeRun
  ffmpeg : FfmpegRun
  OpenErr : Bool
  randRead : ℕ → ℕ
  randReadErr : Bool
  PutObjectErr : Bool
  UpdateVideoErr : Bool
  PresignGetObject : String → String → ℕ → Except Err String
  CreateErr : Bool

/-- A value of type `T`, a Go `error`, or a run-time panic. -/
inductive Outcome (T : Type) where
  | ok (value : T)
  | err (e : Err)
  | panic (msg : String)
deriving DecidableEq

/-- The 32 bytes of `randBytes` after `rand.Read`. -/
def randBytes (env : Env) : List ℕ := (List.range 32).map (fun i => env.randRead i % 256)

/-! ## The functions of `handler_upload_video.go` -/

/-- The function `processVideoForFastStart`: the output path is the input path with
`.processing` appended; the run's error is returned in place of the path. -/
def processVideoForFastStart (run : FfmpegRun) (filePath : String) : Except Err String :=
  match run with
  | .ok => .ok (filePath ++ ".processing")
  | .failed _ => .error "exit status"

/-- The effect of the `ffmpeg` run on the file system. -/
def ffmpegWorld (run : FfmpegRun) (filePath : String) (w : World) : World :=
  match run with
  | .ok => (w.log (.ffmpeg filePath (filePath ++ ".processing"))).addFile
      (filePath ++ ".processing")
  | .failed true => (w.log (.ffmpeg filePath (filePath ++ ".processing"))).addFile
      (filePath ++ ".processing")
  | .failed false => w.log (.ffmpeg filePath (filePath ++ ".processing"))

/-- The function `generatePresignedURL`: the result of `PresignGetObject` for the
bucket, the key and the expiry. -/
def generatePresignedURL (presign : String → String → ℕ → Except Err String)
    (bucket key : String) (expireTime : ℕ) : Except Err String :=
  presign bucket key expireTime

/-- The method `dbVideoToSignedVideo`. Indexing the split result outside its length is
a run-time panic. -/
def dbVideoToSignedVideo (presign : String → String → ℕ → Except Err String)
    (video : Video) : Outcome Video :=
  match video.VideoURL with
  | none => .ok video
  | some url =>
    match (stringsSplit url ',').get? 0, (stringsSplit url ',').get? 1 with
    | some bucket, some key =>
      match generatePresignedURL presign bucket key (Minute * 60) with
      | .error e => .err e
      | .ok presignedUrl => .ok { video with VideoURL := some presignedUrl }
    | _, _ => .panic "index out of range"

/-- The object key `fmt.Sprintf("%v/%v.%v", orientation, randString, path.Base(contentType))`. -/
def objectKey (aspectRatio : String) (randString : String) (contentType : String) : String :=
  orientation aspectRatio ++ "/" ++ randString ++ "." ++ pathBase contentType

/-- The statements of `handlerUploadVideo` after `defer os.Remove(tempFile.Name())`: from
`io.Copy` to the response. The deferred removal is applied in `handlerUploadVideo`. The
results of `io.Copy`, of `rand.Read` and of `UpdateVideo` are not looked at. -/
def handlerUploadVideoStaged (cfg : apiConfig) (env : Env) (video : Video)
    (contentType mediaType tempName : String) (w : World) : Response × World :=
  let w := (w.log (.Copy tempName)).log (.ffprobe tempName)
  match getVideoAspectRatio env.ffprobe with
  | .error _ => (.error StatusInternalServerError "Problem identifying aspect ratio", w)
  | .ok aspectRatio =>
    let w := ffmpegWorld env.ffmpeg tempName w
    match processVideoForFastStart env.ffmpeg tempName with
    | .error _ =>
      (.error StatusInternalServerError "Problem creating fast start version", w)
    | .ok fastStartTempFilePath =>
      let w := w.log (.Open fastStartTempFilePath)
      if env.OpenErr then
        (.error StatusInternalServerError "Problem opening fast start version", w)
      else
        let randString := EncodeToString (randBytes env)
        let filename := objectKey aspectRatio randString contentType
        let w := w.log (.PutObject cfg.s3Bucket filename fastStartTempFilePath mediaType)
        if env.PutObjectErr then
          (.error StatusInternalServerError "Problem uploading video to s3", w)
        else
          let s3VideoURL := cfg.s3Bucket ++ "," ++ filename
          let w := w.updateVideo env.UpdateVideoErr { video with VideoURL := some s3VideoURL }
          match dbVideoToSignedVideo env.PresignGetObject
              { video with VideoURL := some s3VideoURL } with
          | .err _ => (.error StatusInternalServerError "Problem presigning video", w)
          | .panic _ => (.aborted, w)
          | .ok signed => (.json StatusOK signed, w)

/-- The function `handlerUploadVideo`. -/
def handlerUploadVideo (cfg : apiConfig) (env : Env) (w : World) : Response × World :=
  match env.uuidParse with
  | .error _ => (.error StatusBadRequest "Invalid ID", w)
  | .ok videoID =>
    match env.GetBearerToken with
    | .error _ => (.error StatusUnauthorized "Couldn't find JWT", w)
    | .ok _ =>
      match env.ValidateJWT with
      | .error _ => (.error StatusUnauthorized "Couldn't validate JWT", w)
      | .ok _ =>
        match env.GetVideo with
        | .error _ =>
          (.error StatusUnauthorized "User is not the video owner", w.log (.GetVideo videoID))
        | .ok video =>
          match env.FormFile with
          | .error _ =>
            (.error StatusInternalServerError "Couldn't access video file or header",
              w.log (.GetVideo videoID))
          | .ok contentType =>
            match ParseMediaType env.mediaParamsErr contentType with
            | .error _ =>
              (.error StatusUnauthorized "Problem identifying mediaType",
                w.log (.GetVideo videoID))
            | .ok mediaType =>
              if mediaType ≠ "video/mp4" then
                (.error StatusUnauthorized "Media type not allowed", w.log (.GetVideo videoID))
              else
                match env.CreateTemp with
                | .error _ =>
                  (.error StatusInternalServerError "Problem creating temprary file",
                    w.log (.GetVideo videoID))
                | .ok tempName =>
                  ((handlerUploadVideoStaged cfg env video contentType mediaType tempName
                      (((w.log (.GetVideo videoID)).log (.CreateTemp tempName)).addFile
                        tempName)).1,
                    (handlerUploadVideoStaged cfg env video contentType mediaType tempName
                      (((w.log (.GetVideo videoID)).log (.CreateTemp tempName)).addFile
                        tempName)).2.removeFile tempName)

/-! ## The function of `handler_upload_thumbnail.go` -/

/-- The function `handlerUploadThumbnail`. The result of `rand.Read` and of
`UpdateVideo` is not looked at; the result of `io.Copy` is. -/
def handlerUploadThumbnail (cfg : apiConfig) (env : Env) (w : World) : Response × World :=
  match env.uuidParse with
  | .error _ => (.error StatusBadRequest "Invalid ID", w)
  | .ok videoID =>
    match env.GetBearerToken with
    | .error _ => (.error StatusUnauthorized "Couldn't find JWT", w)
    | .ok _ =>
      match env.ValidateJWT with
      | .error _ => (.error StatusUnauthorized "Couldn't validate JWT", w)
      | .ok _ =>
        match env.GetVideo with
        | .error _ =>
          (.error StatusUnauthorized "User is not the video owner", w.log (.GetVideo videoID))
        | .ok video =>
          if env.ParseMultipartFormErr then
            (.error StatusInternalServerError "Couldn't parse multipart form",
              w.log (.GetVideo videoID))
          else
            match env.FormFile with
            | .error _ =>
              (.error StatusInternalServerError "Couldn't access thumbnail file or header",
                w.log (.GetVideo videoID))
            | .ok contentType =>
              match ParseMediaType env.mediaParamsErr contentType with
              | .error _ =>
                (.error StatusUnauthorized "Problem identifying mediaType",
                  w.log (.GetVideo videoID))
              | .ok mediaType =>
                if mediaType ≠ "image/jpeg" ∧ mediaType ≠ "image/png" then
                  (.error StatusUnauthorized "Media type not allowed",
                    w.log (.GetVideo videoID))
                else
                  let filename := EncodeToString (randBytes env) ++ "." ++ pathBase contentType
                  let filePath := filepathJoin cfg.assetsRoot filename
                  let w := (w.log (.GetVideo videoID)).log (.Create filePath)
                  if env.CreateErr then
                    (.error StatusInternalServerError "Couldn't create new file", w)
                  else
                    let w := (w.addFile filePath).log (.Copy filePath)
                    if env.CopyErr then
                      (.error StatusInternalServerError "Couldn't create new file", w)
                    else
                      let newThumbnilURL :=
                        "http://localhost:" ++ cfg.port ++ "/assets/" ++ filename
                      (.json StatusOK { video with ThumbnailURL := some newThumbnilURL },
                        w.updateVideo env.UpdateVideoErr
                          { video with ThumbnailURL := some newThumbnilURL })

/-! ## A sample request: video 7 of user 1, a 1280x720 upload declared `video/mp4` -/

/-- A configuration. -/
def sampleConfig : apiConfig :=
  { s3Bucket := "tubely-1", assetsRoot := "./assets", port := "8091", jwtSecret := "s" }

/-- A record owned by user 1 with no asset yet. -/
def sampleVideo : Video := { ID := 7, UserID := 1, ThumbnailURL := none, VideoURL := none }

/-- A signer that always succeeds. -/
def samplePresign (bucket key : String) (_expires : ℕ) : Except Err String :=
  .ok ("https://" ++ bucket ++ ".s3.amazonaws.com/" ++ key ++ "?X-Amz-Expires=3600")

/-- Every collaborator succeeds; the caller is user 1, the owner of the record. -/
def ownerEnv : Env :=
  { uuidParse := .ok 7
    GetBearerToken := .ok "token"
    ValidateJWT := .ok 1
    GetVideo := .ok sampleVideo
    ParseMultipartFormErr := false
    FormFile := .ok "video/mp4"
    mediaParamsErr := false
    CreateTemp := .ok "/tmp/tubely-upload.mp4123"
    CopyErr := false
    ffprobe := .parsed [{ Width := 1280, Height := 720 }]
    ffmpeg := .ok
    OpenErr := false
    randRead := fun _ => 0
    randReadErr := false
    PutObjectErr := false
    UpdateVideoErr := false
    PresignGetObject := samplePresign
    CreateErr := false }

/-- The world before the request: no staged file, the one record, no call made. -/
def sampleWorld : World := { files := [], videos := [sampleVideo], trace := [] }

/-- The token `EncodeToString` gives for 32 zero bytes. -/
def zeroToken : String := "AAAAAAAAAAAAAAAAAAAAAAAAAAAAAAAAAAAAAAAAAAA"


namespace F64

/-! ## Rounding: the binade and the error of one rounding -/

theorem bitLen_zero (fuel : ℕ) : bitLen fuel 0 = 0 := by
  cases fuel <;> simp [bitLen]

theorem bitLen_spec (fuel : ℕ) : ∀ n, n ≤ fuel → 0 < n →
    0 < bitLen fuel n ∧ 2 ^ (bitLen fuel n - 1) ≤ n ∧ n < 2 ^ bitLen fuel n := by
  induction fuel with
  | zero => intro n h1 h2; omega
  | succ f ih =>
    intro n hn hpos
    have hne : n ≠ 0 := by omega
    simp only [bitLen, hne, if_false]
    by_cases h1 : n = 1
    · subst h1
      simp [bitLen_zero]
    · have h2 : 0 < n / 2 := Nat.div_pos (by omega) (by norm_num)
      have h3 : n / 2 ≤ f := by omega
      obtain ⟨hk, hlo, hhi⟩ := ih (n / 2) h3 h2
      refine ⟨by omega, ?_, ?_⟩
      · have e : bitLen f (n / 2) + 1 - 1 = (bitLen f (n / 2) - 1) + 1 := by omega
        rw [e, pow_succ]
        omega
      · rw [pow_succ]
        omega

theorem ilog2_spec (n : ℕ) (h : 0 < n) : 2 ^ ilog2 n ≤ n ∧ n < 2 ^ (ilog2 n + 1) := by
  obtain ⟨hk, hlo, hhi⟩ := bitLen_spec n n le_rfl h
  unfold ilog2
  refine ⟨hlo, ?_⟩
  have e : bitLen n n - 1 + 1 = bitLen n n := by omega
  rw [e]
  exact hhi

theorem zpow_two_split (k : ℤ) :
    (2 : ℚ) ^ k = ((2 ^ k.toNat : ℕ) : ℚ) / ((2 ^ (-k).toNat : ℕ) : ℚ) := by
  rcases le_total 0 k with h | h
  · obtain ⟨m, rfl⟩ := Int.eq_ofNat_of_zero_le h
    have e2 : (-(m : ℤ)).toNat = 0 := by omega
    simp [e2]
  · obtain ⟨m, hm⟩ := Int.eq_ofNat_of_zero_le (neg_nonneg.mpr h)
    have e1 : k = -(m : ℤ) := by omega
    subst e1
    have e2 : (-(m : ℤ)).toNat = 0 := by omega
    simp [e2]

theorem floorLog2_spec (n d : ℕ) (hn : 0 < n) (hd : 0 < d) :
    (2 : ℚ) ^ floorLog2 n d ≤ (n : ℚ) / d ∧ (n : ℚ) / d < (2 : ℚ) ^ (floorLog2 n d + 1) := by
  obtain ⟨ha, ha'⟩ := ilog2_spec n hn
  obtain ⟨hb, hb'⟩ := ilog2_spec d hd
  have hdq : (0 : ℚ) < d := by exact_mod_cast hd
  have hnq : (0 : ℚ) < n := by exact_mod_cast hn
  have haq : (2 : ℚ) ^ (ilog2 n : ℤ) ≤ n := by
    rw [zpow_natCast]; exact_mod_cast ha
  have haq' : (n : ℚ) < (2 : ℚ) ^ ((ilog2 n : ℤ) + 1) := by
    rw [show ((ilog2 n : ℤ) + 1) = ((ilog2 n + 1 : ℕ) : ℤ) by push_cast; ring, zpow_natCast]
    exact_mod_cast ha'
  have hbq : (2 : ℚ) ^ (ilog2 d : ℤ) ≤ d := by
    rw [zpow_natCast]; exact_mod_cast hb
  have hbq' : (d : ℚ) < (2 : ℚ) ^ ((ilog2 d : ℤ) + 1) := by
    rw [show ((ilog2 d : ℤ) + 1) = ((ilog2 d + 1 : ℕ) : ℤ) by push_cast; ring, zpow_natCast]
    exact_mod_cast hb'
  have h2 : (0 : ℚ) < 2 := by norm_num
  -- the quotient lies strictly between 2^(k-1) and 2^(k+1)
  have hlow : (2 : ℚ) ^ ((ilog2 n : ℤ) - ilog2 d - 1) < (n : ℚ) / d := by
    rw [lt_div_iff₀ hdq]
    calc (2 : ℚ) ^ ((ilog2 n : ℤ) - ilog2 d - 1) * d
        < (2 : ℚ) ^ ((ilog2 n : ℤ) - ilog2 d - 1) * (2 : ℚ) ^ ((ilog2 d : ℤ) + 1) :=
          mul_lt_mul_of_pos_left hbq' (zpow_pos h2 _)
      _ = (2 : ℚ) ^ (ilog2 n : ℤ) := by
          rw [← zpow_add₀ (by norm_num : (2 : ℚ) ≠ 0)]; congr 1; ring
      _ ≤ n := haq
  have hupp : (n : ℚ) / d < (2 : ℚ) ^ ((ilog2 n : ℤ) - ilog2 d + 1) := by
    rw [div_lt_iff₀ hdq]
    calc (n : ℚ) < (2 : ℚ) ^ ((ilog2 n : ℤ) + 1) := haq'
      _ = (2 : ℚ) ^ ((ilog2 n : ℤ) - ilog2 d + 1) * (2 : ℚ) ^ (ilog2 d : ℤ) := by
          rw [← zpow_add₀ (by norm_num : (2 : ℚ) ≠ 0)]; congr 1; ring
      _ ≤ (2 : ℚ) ^ ((ilog2 n : ℤ) - ilog2 d + 1) * d :=
          mul_le_mul_of_nonneg_left hbq (zpow_pos h2 _).le
  -- the test of `floorLog2` compares the quotient with 2^k
  have htest :
      (d * 2 ^ ((ilog2 n : ℤ) - ilog2 d).toNat ≤ n * 2 ^ (-((ilog2 n : ℤ) - ilog2 d)).toNat)
      ↔ (2 : ℚ) ^ ((ilog2 n : ℤ) - ilog2 d) ≤ (n : ℚ) / d := by
    rw [zpow_two_split, le_div_iff₀ hdq, div_mul_eq_mul_div, div_le_iff₀ (by positivity)]
    constructor
    · intro h
      have : ((d * 2 ^ ((ilog2 n : ℤ) - ilog2 d).toNat : ℕ) : ℚ)
          ≤ ((n * 2 ^ (-((ilog2 n : ℤ) - ilog2 d)).toNat : ℕ) : ℚ) := by exact_mod_cast h
      push_cast at this ⊢
      linarith
    · intro h
      have : ((d * 2 ^ ((ilog2 n : ℤ) - ilog2 d).toNat : ℕ) : ℚ)
          ≤ ((n * 2 ^ (-((ilog2 n : ℤ) - ilog2 d)).toNat : ℕ) : ℚ) := by
        push_cast at h ⊢
        linarith
      exact_mod_cast this
  unfold floorLog2
  simp only
  split
  · rename_i ht
    exact ⟨htest.mp ht, hupp⟩
  · rename_i ht
    have hlt : (n : ℚ) / d < (2 : ℚ) ^ ((ilog2 n : ℤ) - ilog2 d) :=
      lt_of_not_le (fun hle => ht (htest.mpr hle))
    refine ⟨hlow.le, ?_⟩
    rw [show ((ilog2 n : ℤ) - ilog2 d - 1 + 1) = ((ilog2 n : ℤ) - ilog2 d) by ring]
    exact hlt

theorem roundHalfEven_spec (n d : ℕ) (hd : 0 < d) :
    |((roundHalfEven n d : ℕ) : ℚ) - (n : ℚ) / d| ≤ 1 / 2 := by
  have hdq : (0 : ℚ) < d := by exact_mod_cast hd
  have hdiv : (n : ℚ) = (d : ℚ) * ((n / d : ℕ) : ℚ) + ((n % d : ℕ) : ℚ) := by
    exact_mod_cast (Nat.div_add_mod n d).symm
  have hmod : ((n % d : ℕ) : ℚ) < d := by exact_mod_cast Nat.mod_lt n hd
  have hmod0 : (0 : ℚ) ≤ ((n % d : ℕ) : ℚ) := by positivity
  have key : (n : ℚ) / d = ((n / d : ℕ) : ℚ) + ((n % d : ℕ) : ℚ) / d := by
    field_simp
    linarith
  have hfrac : ((n % d : ℕ) : ℚ) / d < 1 := by rw [div_lt_one hdq]; exact hmod
  have hfrac0 : (0 : ℚ) ≤ ((n % d : ℕ) : ℚ) / d := by positivity
  have down : 2 * (n % d) ≤ d → |((n / d : ℕ) : ℚ) - (n : ℚ) / d| ≤ 1 / 2 := by
    intro h
    have h' : ((n % d : ℕ) : ℚ) / d ≤ 1 / 2 := by
      rw [div_le_iff₀ hdq]
      have : ((2 * (n % d) : ℕ) : ℚ) ≤ d := by exact_mod_cast h
      push_cast at this
      linarith
    rw [key, abs_le]
    constructor <;> linarith
  have up : d ≤ 2 * (n % d) → |((n / d + 1 : ℕ) : ℚ) - (n : ℚ) / d| ≤ 1 / 2 := by
    intro h
    have h' : 1 / 2 ≤ ((n % d : ℕ) : ℚ) / d := by
      rw [le_div_iff₀ hdq]
      have : (d : ℚ) ≤ ((2 * (n % d) : ℕ) : ℚ) := by exact_mod_cast h
      push_cast at this
      linarith
    rw [key, abs_le]
    push_cast
    constructor <;> linarith
  unfold roundHalfEven
  split
  · exact down (by omega)
  · split
    · exact up (by omega)
    · split
      · exact down (by omega)
      · exact up (by omega)

theorem significand_spec (n d : ℕ) (hd : 0 < d) :
    |((significand n d : ℕ) : ℚ) * (2 : ℚ) ^ quantum n d - (n : ℚ) / d|
      ≤ (2 : ℚ) ^ quantum n d / 2 := by
  have hdq : (0 : ℚ) < d := by exact_mod_cast hd
  have hpos : (0 : ℚ) < (2 : ℚ) ^ quantum n d := zpow_pos (by norm_num) _
  have hA : (0 : ℚ) < ((2 ^ (quantum n d).toNat : ℕ) : ℚ) := by positivity
  have hB : (0 : ℚ) < ((2 ^ (-(quantum n d)).toNat : ℕ) : ℚ) := by positivity
  have h := roundHalfEven_spec (n * 2 ^ (-(quantum n d)).toNat) (d * 2 ^ (quantum n d).toNat)
    (by positivity)
  have e : ((n * 2 ^ (-(quantum n d)).toNat : ℕ) : ℚ) / ((d * 2 ^ (quantum n d).toNat : ℕ) : ℚ)
      = (n : ℚ) / d / (2 : ℚ) ^ quantum n d := by
    rw [zpow_two_split]
    push_cast
    field_simp
  rw [e] at h
  have h' : ((significand n d : ℕ) : ℚ) * (2 : ℚ) ^ quantum n d - (n : ℚ) / d
      = (((significand n d : ℕ) : ℚ) - (n : ℚ) / d / (2 : ℚ) ^ quantum n d)
        * (2 : ℚ) ^ quantum n d := by
    field_simp
    ring
  rw [h', abs_mul, abs_of_pos hpos]
  unfold significand
  calc _ ≤ 1 / 2 * (2 : ℚ) ^ quantum n d := mul_le_mul_of_nonneg_right h hpos.le
    _ = (2 : ℚ) ^ quantum n d / 2 := by ring

theorem quantum_le (n d : ℕ) (hn : 0 < n) (hd : 0 < d) :
    (2 : ℚ) ^ quantum n d ≤ (n : ℚ) / d * (2 : ℚ) ^ (-52 : ℤ) + (2 : ℚ) ^ (-1074 : ℤ)
      ∧ ((2 : ℚ) ^ (-1022 : ℤ) ≤ (n : ℚ) / d →
        (2 : ℚ) ^ quantum n d ≤ (n : ℚ) / d * (2 : ℚ) ^ (-52 : ℤ)) := by
  obtain ⟨hlo, hhi⟩ := floorLog2_spec n d hn hd
  have hx : (0 : ℚ) < (n : ℚ) / d := by positivity
  have h2 : (2 : ℚ) ≠ 0 := by norm_num
  have hp52 : (0 : ℚ) < (2 : ℚ) ^ (-52 : ℤ) := zpow_pos (by norm_num) _
  have hp1074 : (0 : ℚ) < (2 : ℚ) ^ (-1074 : ℤ) := zpow_pos (by norm_num) _
  have hnormal : (2 : ℚ) ^ (floorLog2 n d - 52) ≤ (n : ℚ) / d * (2 : ℚ) ^ (-52 : ℤ) := by
    rw [sub_eq_add_neg, zpow_add₀ h2]
    exact mul_le_mul_of_nonneg_right hlo hp52.le
  unfold quantum
  rcases lt_or_le (floorLog2 n d - 52) (-1074) with h | h
  · rw [max_eq_right h.le]
    refine ⟨by linarith [mul_pos hx hp52], ?_⟩
    intro hx'
    exfalso
    have hle : floorLog2 n d + 1 ≤ -1022 := by omega
    have h3 : (2 : ℚ) ^ (floorLog2 n d + 1) ≤ (2 : ℚ) ^ (-1022 : ℤ) :=
      zpow_le_zpow_right₀ (by norm_num) hle
    exact absurd (lt_of_lt_of_le hhi h3) (not_lt.mpr hx')
  · rw [max_eq_left h]
    exact ⟨by linarith, fun _ => hnormal⟩

theorem roundPos_spec (n d : ℕ) (hn : 0 < n) (hd : 0 < d)
    (hx : (n : ℚ) / d ≤ (2 : ℚ) ^ (1023 : ℤ)) :
    ∃ v : ℚ, roundPos n d = some v
      ∧ |v - (n : ℚ) / d| ≤ (n : ℚ) / d * (2 : ℚ) ^ (-53 : ℤ) + (2 : ℚ) ^ (-1075 : ℤ)
      ∧ ((2 : ℚ) ^ (-1022 : ℤ) ≤ (n : ℚ) / d →
        |v - (n : ℚ) / d| ≤ (n : ℚ) / d * (2 : ℚ) ^ (-53 : ℤ)) := by
  have h2 : (2 : ℚ) ≠ 0 := by norm_num
  have hB : (0 : ℚ) < ((2 ^ (-(quantum n d)).toNat : ℕ) : ℚ) := by positivity
  have hval : (((significand n d * 2 ^ (quantum n d).toNat : ℕ) : ℚ)
      / ((2 ^ (-(quantum n d)).toNat : ℕ) : ℚ))
        = ((significand n d : ℕ) : ℚ) * (2 : ℚ) ^ quantum n d := by
    rw [zpow_two_split]
    push_cast
    field_simp
  have hs := significand_spec n d hd
  obtain ⟨hq, hq'⟩ := quantum_le n d hn hd
  have hx0 : (0 : ℚ) < (n : ℚ) / d := by positivity
  have e53 : (2 : ℚ) ^ (-52 : ℤ) / 2 = (2 : ℚ) ^ (-53 : ℤ) := by
    rw [show (-53 : ℤ) = -52 + -1 by norm_num, zpow_add₀ h2]
    norm_num
  have e1075 : (2 : ℚ) ^ (-1074 : ℤ) / 2 = (2 : ℚ) ^ (-1075 : ℤ) := by
    rw [show (-1075 : ℤ) = -1074 + -1 by norm_num, zpow_add₀ h2]
    norm_num
  have hb1 : |((significand n d : ℕ) : ℚ) * (2 : ℚ) ^ quantum n d - (n : ℚ) / d|
      ≤ (n : ℚ) / d * (2 : ℚ) ^ (-53 : ℤ) + (2 : ℚ) ^ (-1075 : ℤ) := by
    calc _ ≤ (2 : ℚ) ^ quantum n d / 2 := hs
      _ ≤ ((n : ℚ) / d * (2 : ℚ) ^ (-52 : ℤ) + (2 : ℚ) ^ (-1074 : ℤ)) / 2 := by linarith
      _ = (n : ℚ) / d * (2 : ℚ) ^ (-53 : ℤ) + (2 : ℚ) ^ (-1075 : ℤ) := by
        rw [← e53, ← e1075]; ring
  have hfinite : significand n d * 2 ^ (quantum n d).toNat
      < 2 ^ 1024 * 2 ^ (-(quantum n d)).toNat := by
    have h1 : ((significand n d : ℕ) : ℚ) * (2 : ℚ) ^ quantum n d < (2 : ℚ) ^ (1024 : ℤ) := by
      have hup := (abs_le.mp hb1).2
      have h3 : (2 : ℚ) ^ (-53 : ℤ) ≤ 1 / 4 := by
        calc (2 : ℚ) ^ (-53 : ℤ) ≤ (2 : ℚ) ^ (-2 : ℤ) :=
              zpow_le_zpow_right₀ (by norm_num) (by norm_num)
          _ = 1 / 4 := by norm_num
      have h4 : (2 : ℚ) ^ (-1075 : ℤ) ≤ 1 / 4 := by
        calc (2 : ℚ) ^ (-1075 : ℤ) ≤ (2 : ℚ) ^ (-2 : ℤ) :=
              zpow_le_zpow_right₀ (by norm_num) (by norm_num)
          _ = 1 / 4 := by norm_num
      have h5 : (1 : ℚ) ≤ (2 : ℚ) ^ (1023 : ℤ) :=
        one_le_zpow₀ (by norm_num) (by norm_num)
      have h6 : (2 : ℚ) ^ (1024 : ℤ) = 2 * (2 : ℚ) ^ (1023 : ℤ) := by
        rw [show (1024 : ℤ) = 1 + 1023 by norm_num, zpow_add₀ h2]
        norm_num
      have h7 : (n : ℚ) / d * (2 : ℚ) ^ (-53 : ℤ) ≤ (n : ℚ) / d * (1 / 4) :=
        mul_le_mul_of_nonneg_left h3 hx0.le
      rw [h6]
      linarith
    have hP : ((2 ^ 1024 : ℕ) : ℚ) = (2 : ℚ) ^ (1024 : ℤ) := by
      rw [zpow_ofNat, Nat.cast_pow, Nat.cast_ofNat]
    have cast_lt : ∀ a b c : ℕ, (a : ℚ) < (b : ℚ) * (c : ℚ) → a < b * c := by
      intro a b c h
      exact_mod_cast h
    rw [← hval, div_lt_iff₀ hB, ← hP] at h1
    exact cast_lt _ _ _ h1
  refine ⟨((significand n d : ℕ) : ℚ) * (2 : ℚ) ^ quantum n d, ?_, hb1, ?_⟩
  · unfold roundPos
    rw [if_pos hfinite, hval]
  · intro hnorm
    calc _ ≤ (2 : ℚ) ^ quantum n d / 2 := hs
      _ ≤ ((n : ℚ) / d * (2 : ℚ) ^ (-52 : ℤ)) / 2 := by linarith [hq' hnorm]
      _ = (n : ℚ) / d * (2 : ℚ) ^ (-53 : ℤ) := by rw [← e53]; ring

/-- One rounding: a rational of magnitude at most `2^1023` rounds to a finite value, off
by at most a relative `2^-53` plus half the subnormal quantum, and by at most a relative
`2^-53` in the normal range. -/
theorem round_spec (q : ℚ) (hq : |q| ≤ (2 : ℚ) ^ (1023 : ℤ)) :
    ∃ v : ℚ, round q = fin v
      ∧ |v - q| ≤ |q| * (2 : ℚ) ^ (-53 : ℤ) + (2 : ℚ) ^ (-1075 : ℤ)
      ∧ ((2 : ℚ) ^ (-1022 : ℤ) ≤ |q| → |v - q| ≤ |q| * (2 : ℚ) ^ (-53 : ℤ)) := by
  by_cases h0 : q = 0
  · subst h0
    refine ⟨0, by simp [round], ?_, ?_⟩
    · simp only [sub_self, abs_zero, zero_mul, zero_add]
      exact (zpow_pos (by norm_num) _).le
    · intro h
      simp only [abs_zero] at h
      exact absurd h (not_le.mpr (zpow_pos (by norm_num) _))
  · have hden : 0 < q.den := q.den_pos
    have hnum : 0 < q.num.natAbs := Int.natAbs_pos.mpr (Rat.num_ne_zero.mpr h0)
    have habs : |q| = (q.num.natAbs : ℚ) / q.den := by
      have h1 : (q.num : ℚ) / q.den = q := Rat.num_div_den q
      have hdq : (0 : ℚ) < q.den := by exact_mod_cast hden
      have h2 : ((q.num.natAbs : ℕ) : ℚ) = |(q.num : ℚ)| := by
        rw [Nat.cast_natAbs, Int.cast_abs]
      have h3 : |q| = |(q.num : ℚ)| / q.den := by
        conv_lhs => rw [← h1, abs_div, abs_of_pos hdq]
      rw [h3, h2]
    rw [habs] at hq
    obtain ⟨v, hv, hb, hb'⟩ := roundPos_spec q.num.natAbs q.den hnum hden hq
    rw [← habs] at hb hb'
    unfold round
    rw [if_neg h0, hv]
    by_cases hneg : q < 0
    · refine ⟨-v, by simp [hneg], ?_, ?_⟩
      · rw [abs_of_neg hneg] at hb ⊢
        rw [show -v - q = -(v - -q) by ring, abs_neg]
        exact hb
      · intro hn
        have := hb' hn
        rw [abs_of_neg hneg] at this ⊢
        rw [show -v - q = -(v - -q) by ring, abs_neg]
        exact this
    · have hpos : 0 < q := lt_of_le_of_ne (not_lt.mp hneg) (Ne.symm h0)
      refine ⟨v, by simp [hneg], ?_, ?_⟩
      · rw [abs_of_pos hpos] at hb ⊢
        exact hb
      · intro hn
        have := hb' hn
        rw [abs_of_pos hpos] at this ⊢
        exact this

end F64


/-! ## The classification of a ratio -/

theorem AspectRatio16_9_eq :
    AspectRatio16_9 = F64.fin (2001599834386887 / 1125899906842624) := by decide!

theorem AspectRatio9_16_eq : AspectRatio9_16 = F64.fin (9 / 16) := by decide!

theorem tolerance_eq :
    tolerance = F64.fin (5764607523034235 / 576460752303423488) := by decide!

namespace F64

theorem ofInt_spec (w : ℤ) (h1 : 0 < w) (h2 : w < 2 ^ 63) :
    ∃ W : ℚ, ofInt w = fin W ∧ |W - w| ≤ (w : ℚ) * (1 / 2 ^ 53) := by
  have hw : (0 : ℚ) < w := by exact_mod_cast h1
  have hw1 : (1 : ℚ) ≤ w := by exact_mod_cast h1
  have hw2 : (w : ℚ) ≤ 2 ^ 63 := by exact_mod_cast h2.le
  have habs : |(w : ℚ)| = w := abs_of_pos hw
  have hbig : |(w : ℚ)| ≤ (2 : ℚ) ^ (1023 : ℤ) := by
    rw [habs]
    calc (w : ℚ) ≤ (2 : ℚ) ^ (63 : ℤ) := by rw [zpow_ofNat]; exact hw2
      _ ≤ (2 : ℚ) ^ (1023 : ℤ) := zpow_le_zpow_right₀ (by norm_num) (by norm_num)
  have hnormal : (2 : ℚ) ^ (-1022 : ℤ) ≤ |(w : ℚ)| := by
    rw [habs]
    calc (2 : ℚ) ^ (-1022 : ℤ) ≤ (2 : ℚ) ^ (0 : ℤ) :=
          zpow_le_zpow_right₀ (by norm_num) (by norm_num)
      _ = 1 := by norm_num
      _ ≤ w := hw1
  obtain ⟨W, hW, -, hb⟩ := round_spec (w : ℚ) hbig
  have hu : (2 : ℚ) ^ (-53 : ℤ) = 1 / 2 ^ 53 := by norm_num
  have := hb hnormal
  rw [habs, hu] at this
  exact ⟨W, hW, this⟩

/-- The quotient of two converted positive integers is finite and within a relative
`25/8 * 2^-53` of the exact quotient. -/
theorem ratio_spec (w h : ℤ) (hw : 0 < w) (hw' : w < 2 ^ 63) (hh : 0 < h) (hh' : h < 2 ^ 63) :
    ∃ R : ℚ, div (ofInt w) (ofInt h) = fin R
      ∧ |R - (w : ℚ) / h| ≤ (w : ℚ) / h * (25 / 8 * (1 / 2 ^ 53)) := by
  obtain ⟨W, hW, hWb⟩ := ofInt_spec w hw hw'
  obtain ⟨H, hH, hHb⟩ := ofInt_spec h hh hh'
  have hwq : (1 : ℚ) ≤ w := by exact_mod_cast hw
  have hhq : (1 : ℚ) ≤ h := by exact_mod_cast hh
  have hwq' : (w : ℚ) ≤ 2 ^ 63 := by exact_mod_cast hw'.le
  have hhq' : (h : ℚ) ≤ 2 ^ 63 := by exact_mod_cast hh'.le
  obtain ⟨hW1, hW2⟩ := abs_le.mp hWb
  obtain ⟨hH1, hH2⟩ := abs_le.mp hHb
  have hWpos : (0 : ℚ) < W := by norm_num at hW1 ⊢; linarith
  have hHpos : (0 : ℚ) < H := by norm_num at hH1 ⊢; linarith
  have hXpos : (0 : ℚ) < W / H := div_pos hWpos hHpos
  have hXH : W / H * H = W := div_mul_cancel₀ W hHpos.ne'
  have hXabs : |W / H| = W / H := abs_of_pos hXpos
  have hbig : |W / H| ≤ (2 : ℚ) ^ (1023 : ℤ) := by
    rw [hXabs]
    calc W / H ≤ (2 : ℚ) ^ (65 : ℤ) := by
          rw [div_le_iff₀ hHpos, zpow_ofNat]
          norm_num at hW2 hH1 ⊢
          linarith
      _ ≤ (2 : ℚ) ^ (1023 : ℤ) := zpow_le_zpow_right₀ (by norm_num) (by norm_num)
  have hnormal : (2 : ℚ) ^ (-1022 : ℤ) ≤ |W / H| := by
    rw [hXabs]
    calc (2 : ℚ) ^ (-1022 : ℤ) ≤ (2 : ℚ) ^ (-65 : ℤ) :=
          zpow_le_zpow_right₀ (by norm_num) (by norm_num)
      _ ≤ W / H := by
          rw [le_div_iff₀ hHpos]
          norm_num at hW1 hH2 ⊢
          linarith
  obtain ⟨R, hR, -, hRb⟩ := round_spec (W / H) hbig
  have hu : (2 : ℚ) ^ (-53 : ℤ) = 1 / 2 ^ 53 := by norm_num
  have hRb' := hRb hnormal
  rw [hXabs, hu] at hRb'
  obtain ⟨hR1, hR2⟩ := abs_le.mp hRb'
  refine ⟨R, ?_, ?_⟩
  · rw [hW, hH]
    simp only [div, hHpos.ne', if_false]
    exact hR
  · have hhpos : (0 : ℚ) < h := by linarith
    have hrh : (w : ℚ) / h * h = w := div_mul_cancel₀ _ hhpos.ne'
    -- all products are taken against `h`, then `h` is cancelled
    have a1 : W / H * (h * (1 - 1 / 2 ^ 53)) ≤ W := by
      calc W / H * (h * (1 - 1 / 2 ^ 53)) ≤ W / H * H :=
            mul_le_mul_of_nonneg_left (by linarith) hXpos.le
        _ = W := hXH
    have a2 : W ≤ W / H * (h * (1 + 1 / 2 ^ 53)) := by
      calc W = W / H * H := hXH.symm
        _ ≤ W / H * (h * (1 + 1 / 2 ^ 53)) :=
            mul_le_mul_of_nonneg_left (by linarith) hXpos.le
    have a3 : R * h ≤ W / H * h * (1 + 1 / 2 ^ 53) := by
      calc R * h ≤ (W / H + W / H * (1 / 2 ^ 53)) * h :=
            mul_le_mul_of_nonneg_right (by linarith) hhpos.le
        _ = W / H * h * (1 + 1 / 2 ^ 53) := by ring
    have a4 : W / H * h * (1 - 1 / 2 ^ 53) ≤ R * h := by
      calc W / H * h * (1 - 1 / 2 ^ 53) = (W / H - W / H * (1 / 2 ^ 53)) * h := by ring
        _ ≤ R * h := mul_le_mul_of_nonneg_right (by linarith) hhpos.le
    rw [abs_le]
    constructor
    · have : ((w : ℚ) / h * h) * (1 - 25 / 8 * (1 / 2 ^ 53)) ≤ R * h := by
        rw [hrh]
        norm_num at a1 a2 a3 a4 hW1 hW2 ⊢
        linarith
      have h' : ((w : ℚ) / h - (w : ℚ) / h * (25 / 8 * (1 / 2 ^ 53))) * h ≤ R * h := by
        linarith
      have := le_of_mul_le_mul_right h' hhpos
      linarith
    · have : R * h ≤ ((w : ℚ) / h * h) * (1 + 25 / 8 * (1 / 2 ^ 53)) := by
        rw [hrh]
        norm_num at a1 a2 a3 a4 hW1 hW2 ⊢
        linarith
      have h' : R * h ≤ ((w : ℚ) / h + (w : ℚ) / h * (25 / 8 * (1 / 2 ^ 53))) * h := by
        linarith
      have := le_of_mul_le_mul_right h' hhpos
      linarith

/-- The difference `x - c` of a finite `x` of moderate size and a constant `c` between 0
and 2, then `math.Abs` and the comparison with a finite `t`. -/
theorem abs_sub_le_spec (R c t : ℚ) (hR : |R| ≤ 2 ^ 65) (hc : 0 ≤ c) (hc' : c ≤ 2) :
    ∃ D : ℚ, |D - (R - c)| ≤ |R - c| * (1 / 2 ^ 53) + 1 / 2 ^ 100
      ∧ le (abs (sub (fin R) (fin c))) (fin t) = decide (|D| ≤ t) := by
  have hbig : |R - c| ≤ (2 : ℚ) ^ (1023 : ℤ) := by
    calc |R - c| ≤ |R| + |c| := abs_sub R c
      _ ≤ 2 ^ 65 + 2 := by rw [abs_of_nonneg hc]; linarith
      _ ≤ (2 : ℚ) ^ (66 : ℤ) := by rw [zpow_ofNat]; norm_num
      _ ≤ (2 : ℚ) ^ (1023 : ℤ) := zpow_le_zpow_right₀ (by norm_num) (by norm_num)
  obtain ⟨D, hD, hb, -⟩ := round_spec (R - c) hbig
  have hu : (2 : ℚ) ^ (-53 : ℤ) = 1 / 2 ^ 53 := by norm_num
  have heta : (2 : ℚ) ^ (-1075 : ℤ) ≤ 1 / 2 ^ 100 := by
    calc (2 : ℚ) ^ (-1075 : ℤ) ≤ (2 : ℚ) ^ (-100 : ℤ) :=
          zpow_le_zpow_right₀ (by norm_num) (by norm_num)
      _ = 1 / 2 ^ 100 := by norm_num
  rw [hu] at hb
  refine ⟨D, by linarith, ?_⟩
  simp only [sub, hD, abs, le]

end F64

/-- The label of a positive width and height, through the exact quotient `R` that the
division returns and the two rounded differences `D1`, `D2`. -/
theorem aspectLabel_spec (w h : ℤ) (hw : 0 < w) (hw' : w < 2 ^ 63) (hh : 0 < h)
    (hh' : h < 2 ^ 63) :
    ∃ R D1 D2 : ℚ,
      |R - (w : ℚ) / h| ≤ (w : ℚ) / h * (25 / 8 * (1 / 2 ^ 53))
        ∧ |D1 - (R - 2001599834386887 / 1125899906842624)|
          ≤ |R - 2001599834386887 / 1125899906842624| * (1 / 2 ^ 53) + 1 / 2 ^ 100
        ∧ |D2 - (R - 9 / 16)| ≤ |R - 9 / 16| * (1 / 2 ^ 53) + 1 / 2 ^ 100
        ∧ aspectLabel w h =
          if |D1| ≤ 5764607523034235 / 576460752303423488 then Landscape
          else if |D2| ≤ 5764607523034235 / 576460752303423488 then Portrait
          else Other := by
  obtain ⟨R, hR, hRb⟩ := F64.ratio_spec w h hw hw' hh hh'
  have hwq : (1 : ℚ) ≤ w := by exact_mod_cast hw
  have hhq : (1 : ℚ) ≤ h := by exact_mod_cast hh
  have hwq' : (w : ℚ) ≤ 2 ^ 63 := by exact_mod_cast hw'.le
  have hr0 : (0 : ℚ) < (w : ℚ) / h := by positivity
  have hr : (w : ℚ) / h ≤ 2 ^ 63 := by
    rw [div_le_iff₀ (by linarith)]
    nlinarith
  have hRabs : |R| ≤ 2 ^ 65 := by
    obtain ⟨h1, h2⟩ := abs_le.mp hRb
    rw [abs_le]
    norm_num at h1 h2 hr ⊢
    constructor <;> linarith
  obtain ⟨D1, hD1, hL⟩ := F64.abs_sub_le_spec R (2001599834386887 / 1125899906842624)
    (5764607523034235 / 576460752303423488) hRabs (by norm_num) (by norm_num)
  obtain ⟨D2, hD2, hP⟩ := F64.abs_sub_le_spec R (9 / 16)
    (5764607523034235 / 576460752303423488) hRabs (by norm_num) (by norm_num)
  refine ⟨R, D1, D2, hRb, hD1, hD2, ?_⟩
  unfold aspectLabel
  rw [hR, AspectRatio16_9_eq, AspectRatio9_16_eq, tolerance_eq, hL, hP]
  simp only [decide_eq_true_eq]


theorem rounded_diff_le (R c D t T : ℚ)
    (hD : |D - (R - c)| ≤ |R - c| * (1 / 2 ^ 53) + 1 / 2 ^ 100) (hT : |R - c| ≤ T)
    (ht : T * (1 + 1 / 2 ^ 53) + 1 / 2 ^ 100 ≤ t) : |D| ≤ t := by
  have h1 : |D| ≤ |D - (R - c)| + |R - c| := by
    have := abs_add (D - (R - c)) (R - c)
    rwa [sub_add_cancel] at this
  have h2 : |R - c| * (1 / 2 ^ 53) ≤ T * (1 / 2 ^ 53) :=
    mul_le_mul_of_nonneg_right hT (by positivity)
  linarith

theorem rounded_diff_gt (R c D t T : ℚ)
    (hD : |D - (R - c)| ≤ |R - c| * (1 / 2 ^ 53) + 1 / 2 ^ 100) (hT : T ≤ |R - c|)
    (ht : t < T * (1 - 1 / 2 ^ 53) - 1 / 2 ^ 100) : ¬ |D| ≤ t := by
  have h1 : |R - c| ≤ |D - (R - c)| + |D| := by
    have := abs_add (R - c - D) D
    rw [sub_add_cancel, abs_sub_comm (R - c) D] at this
    exact this
  have h2 : T * (1 - 1 / 2 ^ 53) ≤ |R - c| * (1 - 1 / 2 ^ 53) :=
    mul_le_mul_of_nonneg_right hT (by norm_num)
  intro h
  linarith

theorem aspectLabel_self (w : ℤ) (hw : 0 < w) (hw' : w < 2 ^ 63) : aspectLabel w w = Other := by
  obtain ⟨W, hW, hWb⟩ := F64.ofInt_spec w hw hw'
  have hwq : (1 : ℚ) ≤ w := by exact_mod_cast hw
  have hWpos : (0 : ℚ) < W := by
    have := (abs_le.mp hWb).1
    norm_num at this ⊢
    linarith
  have hone : F64.round 1 = F64.fin 1 := by decide!
  have hdiv : F64.div (F64.ofInt w) (F64.ofInt w) = F64.fin 1 := by
    rw [hW]
    simp only [F64.div, hWpos.ne', if_false, div_self hWpos.ne']
    exact hone
  have h1 : F64.le (F64.abs (F64.sub (F64.fin 1) AspectRatio16_9)) tolerance = false := by
    decide!
  have h2 : F64.le (F64.abs (F64.sub (F64.fin 1) AspectRatio9_16)) tolerance = false := by
    decide!
  unfold aspectLabel
  rw [hdiv, h1, h2]
  simp

/-- C1, as stated, fails on the boundary: 1609x900 is at distance exactly 0.01 from
16/9 and 229x400 at distance exactly 0.01 from 9/16, and both get the label `other`. -/
theorem boundary_ratios_are_labelled_other :
    |(1609 : ℚ) / 900 - 16 / 9| ≤ 1 / 100
      ∧ getVideoAspectRatio (.parsed [{ Width := 1609, Height := 900 }]) = .ok "other"
      ∧ |(229 : ℚ) / 400 - 9 / 16| ≤ 1 / 100
      ∧ getVideoAspectRatio (.parsed [{ Width := 229, Height := 400 }]) = .ok "other"
      ∧ orientation "other" = "other" := by
  decide!

/-- C1, amended: for a first stream of width `w` and height `h` with `0 < w, h < 2^63`
and `r = w / h`, `getVideoAspectRatio` returns a label and the orientation segment is
`landscape` if `|r - 16/9| ≤ 0.01 - 2^-50`, `portrait` if `|r - 9/16| ≤ 0.01 - 2^-50`,
`other` if both distances are at least `0.01 + 2^-50`; it is `other` for every `w = h`,
and `landscape` for 1280x720. -/
theorem orientation_of_ratio (w h : ℤ) (rest : List Stream) (hw : 0 < w) (hw' : w < 2 ^ 63)
    (hh : 0 < h) (hh' : h < 2 ^ 63) :
    ∃ label, getVideoAspectRatio (.parsed ({ Width := w, Height := h } :: rest)) = .ok label
      ∧ (|(w : ℚ) / h - 16 / 9| ≤ 1 / 100 - 1 / 2 ^ 50 → orientation label = "landscape")
      ∧ (|(w : ℚ) / h - 9 / 16| ≤ 1 / 100 - 1 / 2 ^ 50 → orientation label = "portrait")
      ∧ (1 / 100 + 1 / 2 ^ 50 ≤ |(w : ℚ) / h - 16 / 9| →
          1 / 100 + 1 / 2 ^ 50 ≤ |(w : ℚ) / h - 9 / 16| → orientation label = "other")
      ∧ (w = h → orientation label = "other")
      ∧ getVideoAspectRatio (.parsed ({ Width := 1280, Height := 720 } :: rest)) = .ok "16:9"
      ∧ orientation "16:9" = "landscape" := by
  refine ⟨aspectLabel w h, rfl, ?_, ?_, ?_, ?_, ?_, by decide⟩
  · intro hr
    obtain ⟨R, D1, D2, hR, hD1, hD2, hlabel⟩ := aspectLabel_spec w h hw hw' hh hh'
    obtain ⟨hr1, hr2⟩ := abs_le.mp hr
    obtain ⟨hR1, hR2⟩ := abs_le.mp hR
    have hT : |R - 2001599834386887 / 1125899906842624| ≤ 1 / 100 - 3 / 2 * (1 / 2 ^ 53) := by
      rw [abs_le]
      norm_num at hr1 hr2 hR1 hR2 ⊢
      constructor <;> linarith
    have := rounded_diff_le _ _ _ (5764607523034235 / 576460752303423488) _ hD1 hT
      (by norm_num)
    rw [hlabel, if_pos this]
    decide
  · intro hr
    obtain ⟨R, D1, D2, hR, hD1, hD2, hlabel⟩ := aspectLabel_spec w h hw hw' hh hh'
    obtain ⟨hr1, hr2⟩ := abs_le.mp hr
    obtain ⟨hR1, hR2⟩ := abs_le.mp hR
    have hT1 : 1 ≤ |R - 2001599834386887 / 1125899906842624| := by
      rw [le_abs]
      right
      norm_num at hr1 hr2 hR1 hR2 ⊢
      linarith
    have hT2 : |R - 9 / 16| ≤ 1 / 100 - 3 / 2 * (1 / 2 ^ 53) := by
      rw [abs_le]
      norm_num at hr1 hr2 hR1 hR2 ⊢
      constructor <;> linarith
    have n1 := rounded_diff_gt _ _ _ (5764607523034235 / 576460752303423488) _ hD1 hT1
      (by norm_num)
    have n2 := rounded_diff_le _ _ _ (5764607523034235 / 576460752303423488) _ hD2 hT2
      (by norm_num)
    rw [hlabel, if_neg n1, if_pos n2]
    decide
  · intro hr hr'
    obtain ⟨R, D1, D2, hR, hD1, hD2, hlabel⟩ := aspectLabel_spec w h hw hw' hh hh'
    obtain ⟨hR1, hR2⟩ := abs_le.mp hR
    have hwq : (1 : ℚ) ≤ w := by exact_mod_cast hw
    have hhq : (1 : ℚ) ≤ h := by exact_mod_cast hh
    have hr0 : (0 : ℚ) < (w : ℚ) / h := by positivity
    have hT1 : 1 / 100 + 1 / 2 ^ 53 ≤ |R - 2001599834386887 / 1125899906842624| := by
      rw [le_abs]
      rcases le_abs.mp hr with h1 | h1
      · left
        norm_num at h1 hR1 hR2 ⊢
        linarith
      · right
        norm_num at h1 hR1 hR2 ⊢
        linarith
    have hT2 : 1 / 100 + 1 / 2 ^ 53 ≤ |R - 9 / 16| := by
      rw [le_abs]
      rcases le_abs.mp hr' with h1 | h1
      · left
        norm_num at h1 hR1 hR2 ⊢
        linarith
      · right
        norm_num at h1 hR1 hR2 ⊢
        linarith
    have n1 := rounded_diff_gt _ _ _ (5764607523034235 / 576460752303423488) _ hD1 hT1
      (by norm_num)
    have n2 := rounded_diff_gt _ _ _ (5764607523034235 / 576460752303423488) _ hD2 hT2
      (by norm_num)
    rw [hlabel, if_neg n1, if_neg n2]
    decide
  · intro e
    subst e
    rw [aspectLabel_self w hw hw']
    decide
  · have h1280 : aspectLabel 1280 720 = "16:9" := by decide!
    simp only [getVideoAspectRatio, h1280]

/-- The hypotheses of `orientation_of_ratio` hold for 1920x1080, and its first
conclusion gives `landscape` there. -/
theorem orientation_of_ratio_witness :
    ∃ label, getVideoAspectRatio (.parsed [{ Width := 1920, Height := 1080 }]) = .ok label
      ∧ orientation label = "landscape" := by
  obtain ⟨label, h1, h2, -⟩ := orientation_of_ratio 1920 1080 [] (by decide) (by decide)
    (by decide) (by decide)
  exact ⟨label, h1, h2 (by norm_num [abs_le])⟩


/-! ## Strings: splitting, encoding, the base of a path -/

theorem splitChars_no_sep (sep : Char) (l : List Char) (h : sep ∉ l) :
    splitChars sep l = [l] := by
  induction l with
  | nil => rfl
  | cons c cs ih =>
    have hc : c ≠ sep := fun e => h (by simp [e])
    have hcs : sep ∉ cs := fun e => h (by simp [e])
    simp [splitChars, hc, ih hcs]

theorem splitChars_append_sep (sep : Char) (l r : List Char) (h : sep ∉ l) :
    splitChars sep (l ++ sep :: r) = l :: splitChars sep r := by
  induction l with
  | nil => simp [splitChars]
  | cons c cs ih =>
    have hc : c ≠ sep := fun e => h (by simp [e])
    have hcs : sep ∉ cs := fun e => h (by simp [e])
    simp [splitChars, hc, ih hcs]

theorem stringsSplit_pair (a b : String) (ha : ',' ∉ a.toList) (hb : ',' ∉ b.toList) :
    stringsSplit (a ++ "," ++ b) ',' = [a, b] := by
  have h : (a ++ "," ++ b).toList = a.toList ++ ',' :: b.toList := by
    simp [String.toList]
  simp only [stringsSplit, h, splitChars_append_sep _ _ _ ha, splitChars_no_sep _ _ hb]
  simp [String.toList]

theorem b64Char_mem (n : ℕ) : b64Char n ∈ urlAlphabet := by
  have h : n % 64 < urlAlphabet.length := by
    have : urlAlphabet.length = 64 := by decide
    omega
  unfold b64Char
  rw [List.getD_eq_getElem _ _ h]
  exact List.getElem_mem h

theorem encodeChars_mem (bytes : List ℕ) : ∀ c ∈ encodeChars bytes, c ∈ urlAlphabet := by
  induction bytes using encodeChars.induct with
  | case1 a b c rest ih =>
    intro x hx
    simp only [encodeChars, List.mem_cons] at hx
    rcases hx with rfl | rfl | rfl | rfl | hx
    · exact b64Char_mem _
    · exact b64Char_mem _
    · exact b64Char_mem _
    · exact b64Char_mem _
    · exact ih x hx
  | case2 a b =>
    intro x hx
    simp only [encodeChars, List.mem_cons, List.mem_singleton] at hx
    rcases hx with rfl | rfl | rfl | hx
    · exact b64Char_mem _
    · exact b64Char_mem _
    · exact b64Char_mem _
    · simp at hx
  | case3 a =>
    intro x hx
    simp only [encodeChars, List.mem_cons, List.mem_singleton] at hx
    rcases hx with rfl | rfl | hx
    · exact b64Char_mem _
    · exact b64Char_mem _
    · simp at hx
  | case4 => simp [encodeChars]

theorem encodeChars_length (bytes : List ℕ) :
    (encodeChars bytes).length = (4 * bytes.length + 2) / 3 := by
  induction bytes using encodeChars.induct with
  | case1 a b c rest ih =>
    simp only [encodeChars, List.length_cons, ih]
    omega
  | case2 a b => simp [encodeChars]
  | case3 a => simp [encodeChars]
  | case4 => simp [encodeChars]

theorem randBytes_length (env : Env) : (randBytes env).length = 32 := by
  simp [randBytes]

theorem token_length (env : Env) : (EncodeToString (randBytes env)).length = 43 := by
  simp [EncodeToString, String.length, encodeChars_length, randBytes_length]

theorem token_no_comma (bytes : List ℕ) : ',' ∉ (EncodeToString bytes).toList := by
  intro h
  have := encodeChars_mem bytes ',' (by simpa [EncodeToString, String.toList] using h)
  revert this
  decide

theorem orientation_mem (aspectRatio : String) :
    orientation aspectRatio ∈ ["landscape", "portrait", "other"] := by
  unfold orientation
  split
  · simp
  · split <;> simp

theorem orientation_no_comma (aspectRatio : String) :
    ',' ∉ (orientation aspectRatio).toList := by
  have h := orientation_mem aspectRatio
  simp only [List.mem_cons, List.mem_singleton] at h
  rcases h with h | h | h | h
  · rw [h]; decide
  · rw [h]; decide
  · rw [h]; decide
  · simp at h

theorem pathBase_mem (p : String) (c : Char) (h : c ∈ (pathBase p).toList) :
    c ∈ p.toList ∨ c = '.' ∨ c = '/' := by
  unfold pathBase at h
  split at h
  · right; left; simpa [String.toList] using h
  · split at h
    · right; right; simpa [String.toList] using h
    · left
      have h1 : c ∈ ((p.toList.reverse.dropWhile (· = '/')).takeWhile (· ≠ '/')) := by
        simpa [String.toList] using h
      have h2 := (List.takeWhile_sublist _).subset h1
      have h3 := (List.dropWhile_sublist _).subset h2
      simpa using h3

theorem objectKey_no_comma (aspectRatio contentType : String) (bytes : List ℕ)
    (hc : ',' ∉ contentType.toList) :
    ',' ∉ (objectKey aspectRatio (EncodeToString bytes) contentType).toList := by
  intro h
  have h' : ',' ∈ (orientation aspectRatio).toList ∨ ',' ∈ (EncodeToString bytes).toList
      ∨ ',' ∈ (pathBase contentType).toList := by
    simpa [objectKey, String.toList] using h
  rcases h' with h' | h' | h'
  · exact orientation_no_comma _ h'
  · exact token_no_comma _ h'
  · rcases pathBase_mem _ _ h' with h'' | h'' | h''
    · exact hc h''
    · exact absurd h'' (by decide)
    · exact absurd h'' (by decide)


/-! ## The video handler: what reaches the object store and the metadata store -/

/-- C3, as stated, fails: a declared `VIDEO/MP4` and a declared
`video/mp4; codecs=avc1` both parse to `video/mp4` and are accepted, and the key passed
to `PutObject` ends in `.MP4`, respectively `.mp4; codecs=avc1`, not in `.mp4`. -/
theorem declared_type_case_reaches_the_key :
    ParseMediaType false "VIDEO/MP4" = .ok "video/mp4"
      ∧ Event.PutObject "tubely-1" ("landscape/" ++ zeroToken ++ ".MP4")
          "/tmp/tubely-upload.mp4123.processing" "video/mp4"
        ∈ (handlerUploadVideo sampleConfig { ownerEnv with FormFile := .ok "VIDEO/MP4" }
          sampleWorld).2.trace
      ∧ ¬ (".mp4".toList <:+ ("landscape/" ++ zeroToken ++ ".MP4").toList)
      ∧ ParseMediaType false "video/mp4; codecs=avc1" = .ok "video/mp4"
      ∧ Event.PutObject "tubely-1" ("landscape/" ++ zeroToken ++ ".mp4; codecs=avc1")
          "/tmp/tubely-upload.mp4123.processing" "video/mp4"
        ∈ (handlerUploadVideo sampleConfig
          { ownerEnv with FormFile := .ok "video/mp4; codecs=avc1" } sampleWorld).2.trace
      ∧ ¬ (".mp4".toList <:+ ("landscape/" ++ zeroToken ++ ".mp4; codecs=avc1").toList) := by
  decide!

/-- Either `handlerUploadVideo` answers with an error before a file is staged, having made
at most the `GetVideo` call, or it stages a file and runs the rest of the pipeline. -/
theorem handlerUploadVideo_cases (cfg : apiConfig) (env : Env) (w : World) :
    (∃ code msg, code ≠ StatusOK ∧ (handlerUploadVideo cfg env w = (.error code msg, w)
        ∨ ∃ id, handlerUploadVideo cfg env w = (.error code msg, w.log (.GetVideo id))))
      ∨ ∃ id video contentType tempName,
          env.uuidParse = .ok id ∧ env.GetVideo = .ok video
            ∧ env.FormFile = .ok contentType
            ∧ ParseMediaType env.mediaParamsErr contentType = .ok "video/mp4"
            ∧ env.CreateTemp = .ok tempName
            ∧ handlerUploadVideo cfg env w =
              ((handlerUploadVideoStaged cfg env video contentType "video/mp4" tempName
                  (((w.log (.GetVideo id)).log (.CreateTemp tempName)).addFile tempName)).1,
                (handlerUploadVideoStaged cfg env video contentType "video/mp4" tempName
                  (((w.log (.GetVideo id)).log (.CreateTemp tempName)).addFile
                    tempName)).2.removeFile tempName) := by
  unfold handlerUploadVideo
  cases h1 : env.uuidParse with
  | error e => exact Or.inl ⟨_, _, by decide, Or.inl rfl⟩
  | ok id =>
    dsimp only
    cases h2 : env.GetBearerToken with
    | error e => exact Or.inl ⟨_, _, by decide, Or.inl rfl⟩
    | ok tok =>
      dsimp only
      cases h3 : env.ValidateJWT with
      | error e => exact Or.inl ⟨_, _, by decide, Or.inl rfl⟩
      | ok userID =>
        dsimp only
        cases h4 : env.GetVideo with
        | error e => exact Or.inl ⟨_, _, by decide, Or.inr ⟨id, rfl⟩⟩
        | ok video =>
          dsimp only
          cases h5 : env.FormFile with
          | error e => exact Or.inl ⟨_, _, by decide, Or.inr ⟨id, rfl⟩⟩
          | ok contentType =>
            dsimp only
            cases h6 : ParseMediaType env.mediaParamsErr contentType with
            | error e => exact Or.inl ⟨_, _, by decide, Or.inr ⟨id, rfl⟩⟩
            | ok mediaType =>
              dsimp only
              by_cases h7 : mediaType = "video/mp4"
              · subst h7
                cases h8 : env.CreateTemp with
                | error e =>
                  exact Or.inl ⟨StatusInternalServerError, "Problem creating temprary file",
                    by decide, Or.inr ⟨id, by simp⟩⟩
                | ok tempName =>
                  exact Or.inr ⟨id, video, contentType, tempName, rfl, rfl, rfl, h6, rfl,
                    by simp⟩
              · exact Or.inl ⟨StatusUnauthorized, "Media type not allowed", by decide,
                  Or.inr ⟨id, by simp [h7]⟩⟩

theorem splitChars_ne_nil (sep : Char) (l : List Char) : splitChars sep l ≠ [] := by
  cases l with
  | nil => simp [splitChars]
  | cons c cs =>
    simp only [splitChars]
    split
    · simp
    · split <;> simp

theorem splitChars_two (sep : Char) (l r : List Char) :
    ∃ x y rest, splitChars sep (l ++ sep :: r) = x :: y :: rest := by
  induction l with
  | nil =>
    cases hb : splitChars sep r with
    | nil => exact absurd hb (splitChars_ne_nil sep r)
    | cons y rest => exact ⟨[], y, rest, by simp [splitChars, hb]⟩
  | cons c cs ih =>
    obtain ⟨x, y, rest, hxy⟩ := ih
    by_cases hc : c = sep
    · exact ⟨[], x, y :: rest, by simp [splitChars, hc, hxy]⟩
    · exact ⟨c :: x, y, rest, by simp [splitChars, hc, hxy]⟩

/-- The signer is reached with a `VideoURL` of the form `{bucket},{key}`: indexing the
split result does not panic there. -/
theorem dbVideoToSignedVideo_no_panic (presign : String → String → ℕ → Except Err String)
    (video : Video) (a b : String) (msg : String) :
    dbVideoToSignedVideo presign { video with VideoURL := some (a ++ "," ++ b) }
      ≠ .panic msg := by
  have h : (a ++ "," ++ b).toList = a.toList ++ ',' :: b.toList := by simp [String.toList]
  obtain ⟨x, y, rest, hxy⟩ := splitChars_two ',' a.toList b.toList
  simp only [dbVideoToSignedVideo, stringsSplit, h, hxy]
  simp only [List.map_cons, List.get?_cons_zero, List.get?_cons_succ]
  split <;> simp

/-- The world after the staged part of the pipeline, step by step. -/
theorem staged_world (cfg : apiConfig) (env : Env) (video : Video)
    (contentType mediaType tempName : String) (w : World) :
    ((∃ e, getVideoAspectRatio env.ffprobe = .error e)
        ∧ (handlerUploadVideoStaged cfg env video contentType mediaType tempName w).2 =
          (w.log (.Copy tempName)).log (.ffprobe tempName)
        ∧ (handlerUploadVideoStaged cfg env video contentType mediaType tempName w).1 =
          .error StatusInternalServerError "Problem identifying aspect ratio")
      ∨ ((∃ left, env.ffmpeg = .failed left)
        ∧ (handlerUploadVideoStaged cfg env video contentType mediaType tempName w).2 =
          ffmpegWorld env.ffmpeg tempName ((w.log (.Copy tempName)).log (.ffprobe tempName))
        ∧ (handlerUploadVideoStaged cfg env video contentType mediaType tempName w).1 =
          .error StatusInternalServerError "Problem creating fast start version")
      ∨ (env.ffmpeg = .ok ∧ env.OpenErr = true
        ∧ (handlerUploadVideoStaged cfg env video contentType mediaType tempName w).2 =
          (ffmpegWorld .ok tempName ((w.log (.Copy tempName)).log (.ffprobe tempName))).log
            (.Open (tempName ++ ".processing"))
        ∧ (handlerUploadVideoStaged cfg env video contentType mediaType tempName w).1 =
          .error StatusInternalServerError "Problem opening fast start version")
      ∨ (∃ aspectRatio, getVideoAspectRatio env.ffprobe = .ok aspectRatio
        ∧ env.ffmpeg = .ok ∧ env.OpenErr = false ∧ env.PutObjectErr = true
        ∧ (handlerUploadVideoStaged cfg env video contentType mediaType tempName w).2 =
          ((ffmpegWorld .ok tempName ((w.log (.Copy tempName)).log (.ffprobe tempName))).log
            (.Open (tempName ++ ".processing"))).log
              (.PutObject cfg.s3Bucket
                (objectKey aspectRatio (EncodeToString (randBytes env)) contentType)
                (tempName ++ ".processing") mediaType)
        ∧ (handlerUploadVideoStaged cfg env video contentType mediaType tempName w).1 =
          .error StatusInternalServerError "Problem uploading video to s3")
      ∨ (∃ aspectRatio, getVideoAspectRatio env.ffprobe = .ok aspectRatio
        ∧ env.ffmpeg = .ok ∧ env.OpenErr = false ∧ env.PutObjectErr = false
        ∧ (handlerUploadVideoStaged cfg env video contentType mediaType tempName w).2 =
          (((ffmpegWorld .ok tempName ((w.log (.Copy tempName)).log (.ffprobe tempName))).log
            (.Open (tempName ++ ".processing"))).log
              (.PutObject cfg.s3Bucket
                (objectKey aspectRatio (EncodeToString (randBytes env)) contentType)
                (tempName ++ ".processing") mediaType)).updateVideo env.UpdateVideoErr
                  { video with VideoURL := some (cfg.s3Bucket ++ "," ++
                      objectKey aspectRatio (EncodeToString (randBytes env)) contentType) }
        ∧ ((handlerUploadVideoStaged cfg env video contentType mediaType tempName w).1 =
            .error StatusInternalServerError "Problem presigning video"
          ∨ ∃ signed,
            (handlerUploadVideoStaged cfg env video contentType mediaType tempName w).1 =
              .json StatusOK signed)) := by
  unfold handlerUploadVideoStaged
  cases hp : getVideoAspectRatio env.ffprobe with
  | error e => exact Or.inl ⟨⟨e, rfl⟩, rfl, rfl⟩
  | ok aspectRatio =>
    cases hf : env.ffmpeg with
    | failed left => exact Or.inr (Or.inl ⟨⟨left, rfl⟩, rfl, rfl⟩)
    | ok =>
      cases ho : env.OpenErr with
      | true => exact Or.inr (Or.inr (Or.inl ⟨rfl, rfl, rfl, rfl⟩))
      | false =>
        cases hput : env.PutObjectErr with
        | true =>
          exact Or.inr (Or.inr (Or.inr (Or.inl ⟨aspectRatio, rfl, rfl, rfl, rfl, rfl, rfl⟩)))
        | false =>
          refine Or.inr (Or.inr (Or.inr (Or.inr ⟨aspectRatio, rfl, rfl, rfl, rfl, ?_, ?_⟩)))
          · simp only [processVideoForFastStart, Bool.false_eq_true, if_false]
            split <;> rfl
          · simp only [processVideoForFastStart, Bool.false_eq_true, if_false]
            split
            · exact Or.inl rfl
            · rename_i msg hpanic
              exact absurd hpanic (dbVideoToSignedVideo_no_panic _ _ _ _ _)
            · exact Or.inr ⟨_, rfl⟩

theorem objectKey_mp4 (aspectRatio randString : String) :
    objectKey aspectRatio randString "video/mp4"
      = orientation aspectRatio ++ "/" ++ randString ++ ".mp4" := by
  have h : pathBase "video/mp4" = "mp4" := by decide
  simp only [objectKey, h, String.append_assoc]
  rfl

/-- C3, amended: whenever `handlerUploadVideo` calls `PutObject`, the declared
Content-Type parsed to `video/mp4` and the key is
`{orientation}/{token}.{path.Base(declared Content-Type)}`, with the orientation one of
`landscape`, `portrait`, `other` and the token the 43-character encoding of the 32
random bytes; when the declared value is exactly `video/mp4` the key is
`{orientation}/{token}.mp4`. -/
theorem putObject_key_shape (cfg : apiConfig) (env : Env) (files : List String)
    (videos : List Video) (bucket key body mediaType : String)
    (h : Event.PutObject bucket key body mediaType
      ∈ (handlerUploadVideo cfg env { files := files, videos := videos, trace := [] }).2.trace) :
    ∃ contentType o,
      env.FormFile = .ok contentType
        ∧ ParseMediaType env.mediaParamsErr contentType = .ok "video/mp4"
        ∧ mediaType = "video/mp4"
        ∧ o ∈ ["landscape", "portrait", "other"]
        ∧ key = o ++ "/" ++ EncodeToString (randBytes env) ++ "." ++ pathBase contentType
        ∧ (randBytes env).length = 32
        ∧ (EncodeToString (randBytes env)).length = 43
        ∧ (contentType = "video/mp4" →
            key = o ++ "/" ++ EncodeToString (randBytes env) ++ ".mp4") := by
  rcases handlerUploadVideo_cases cfg env { files := files, videos := videos, trace := [] }
    with ⟨code, msg, _, hr | ⟨id, hr⟩⟩ | ⟨id, video, contentType, tempName, _, _, hF, hP, _, hr⟩
  · rw [hr] at h
    simp at h
  · rw [hr] at h
    simp [World.log] at h
  · rw [hr] at h
    have shape : ∀ aspectRatio,
        key = objectKey aspectRatio (EncodeToString (randBytes env)) contentType →
        mediaType = "video/mp4" →
        ∃ contentType o,
          env.FormFile = .ok contentType
            ∧ ParseMediaType env.mediaParamsErr contentType = .ok "video/mp4"
            ∧ mediaType = "video/mp4"
            ∧ o ∈ ["landscape", "portrait", "other"]
            ∧ key = o ++ "/" ++ EncodeToString (randBytes env) ++ "." ++ pathBase contentType
            ∧ (randBytes env).length = 32
            ∧ (EncodeToString (randBytes env)).length = 43
            ∧ (contentType = "video/mp4" →
                key = o ++ "/" ++ EncodeToString (randBytes env) ++ ".mp4") := by
      intro aspectRatio hk hm
      refine ⟨contentType, orientation aspectRatio, hF, hP, hm, orientation_mem _, hk,
        randBytes_length env, token_length env, ?_⟩
      intro hct
      rw [hk, hct]
      exact objectKey_mp4 _ _
    rcases staged_world cfg env video contentType "video/mp4" tempName
        (({ files := files, videos := videos, trace := [] } : World).log (.GetVideo id)
          |>.log (.CreateTemp tempName) |>.addFile tempName)
      with ⟨_, hw, _⟩ | ⟨⟨left, hl⟩, hw, _⟩ | ⟨_, _, hw, _⟩ | ⟨a, _, _, _, _, hw, _⟩
        | ⟨a, _, _, _, _, hw, _⟩
    · rw [hw] at h
      simp [World.log, World.addFile, World.removeFile] at h
    · rw [hw, hl] at h
      cases left <;> simp [World.log, World.addFile, World.removeFile, ffmpegWorld] at h
    · rw [hw] at h
      simp [World.log, World.addFile, World.removeFile, ffmpegWorld] at h
    · rw [hw] at h
      simp [World.log, World.addFile, World.removeFile, ffmpegWorld] at h
      exact shape a h.2.1 h.2.2.2
    · rw [hw] at h
      simp [World.log, World.addFile, World.removeFile, ffmpegWorld, World.updateVideo] at h
      exact shape a h.2.1 h.2.2.2

/-- The hypothesis of `putObject_key_shape` holds on the sample request. -/
theorem putObject_key_shape_witness :
    ∃ contentType o,
      ownerEnv.FormFile = .ok contentType
        ∧ ParseMediaType ownerEnv.mediaParamsErr contentType = .ok "video/mp4"
        ∧ "video/mp4" = "video/mp4"
        ∧ o ∈ ["landscape", "portrait", "other"]
        ∧ "landscape/" ++ zeroToken ++ ".mp4"
          = o ++ "/" ++ EncodeToString (randBytes ownerEnv) ++ "." ++ pathBase contentType
        ∧ (randBytes ownerEnv).length = 32
        ∧ (EncodeToString (randBytes ownerEnv)).length = 43
        ∧ (contentType = "video/mp4" →
            "landscape/" ++ zeroToken ++ ".mp4"
              = o ++ "/" ++ EncodeToString (randBytes ownerEnv) ++ ".mp4") :=
  putObject_key_shape sampleConfig ownerEnv [] [sampleVideo] "tubely-1"
    ("landscape/" ++ zeroToken ++ ".mp4") "/tmp/tubely-upload.mp4123.processing" "video/mp4"
    (by decide!)

/-- C5: if `handlerUploadVideo` calls `UpdateVideo`, then the prober succeeded,
`processVideoForFastStart` succeeded, `PutObject` succeeded with the normalized file as
its body and was called before `UpdateVideo`, and the record written is the fetched one
with `VideoURL` set to `{bucket},{key}` for the bucket and key of that `PutObject`. If
the prober, the normalizer or `PutObject` fails, `UpdateVideo` is not called and the
records of the metadata store are unchanged. -/
theorem updateVideo_follows_normalized_put (cfg : apiConfig) (env : Env)
    (files : List String) (videos : List Video) :
    (∀ v, Event.UpdateVideo v
        ∈ (handlerUploadVideo cfg env
          { files := files, videos := videos, trace := [] }).2.trace →
      ∃ id video contentType tempName aspectRatio,
        env.GetVideo = .ok video
          ∧ env.FormFile = .ok contentType
          ∧ env.CreateTemp = .ok tempName
          ∧ getVideoAspectRatio env.ffprobe = .ok aspectRatio
          ∧ processVideoForFastStart env.ffmpeg tempName = .ok (tempName ++ ".processing")
          ∧ env.PutObjectErr = false
          ∧ v = { video with VideoURL := some (cfg.s3Bucket ++ "," ++
              objectKey aspectRatio (EncodeToString (randBytes env)) contentType) }
          ∧ (handlerUploadVideo cfg env
              { files := files, videos := videos, trace := [] }).2.trace =
            [ .GetVideo id, .CreateTemp tempName, .Copy tempName, .ffprobe tempName,
              .ffmpeg tempName (tempName ++ ".processing"),
              .Open (tempName ++ ".processing"),
              .PutObject cfg.s3Bucket
                (objectKey aspectRatio (EncodeToString (randBytes env)) contentType)
                (tempName ++ ".processing") "video/mp4",
              .UpdateVideo v, .Remove tempName ])
      ∧ (((∃ e, getVideoAspectRatio env.ffprobe = .error e) ∨ (∃ left, env.ffmpeg = .failed left)
            ∨ env.PutObjectErr = true) →
          (handlerUploadVideo cfg env
              { files := files, videos := videos, trace := [] }).2.videos = videos
            ∧ ∀ v, Event.UpdateVideo v
              ∉ (handlerUploadVideo cfg env
                { files := files, videos := videos, trace := [] }).2.trace) := by
  rcases handlerUploadVideo_cases cfg env { files := files, videos := videos, trace := [] }
    with ⟨code, msg, _, hr | ⟨id, hr⟩⟩ | ⟨id, video, contentType, tempName, _, hG, hF, _, hT, hr⟩
  · rw [hr]
    simp
  · rw [hr]
    simp [World.log]
  · rw [hr]
    rcases staged_world cfg env video contentType "video/mp4" tempName
        (({ files := files, videos := videos, trace := [] } : World).log (.GetVideo id)
          |>.log (.CreateTemp tempName) |>.addFile tempName)
      with ⟨_, hw, _⟩ | ⟨⟨left, hl⟩, hw, _⟩ | ⟨_, _, hw, _⟩ | ⟨a, _, _, _, _, hw, _⟩
        | ⟨a, hp, hf, _, hput, hw, _⟩
    · rw [hw]
      simp [World.log, World.addFile, World.removeFile]
    · rw [hw, hl]
      cases left <;> simp [World.log, World.addFile, World.removeFile, ffmpegWorld]
    · rw [hw]
      simp [World.log, World.addFile, World.removeFile, ffmpegWorld]
    · rw [hw]
      simp [World.log, World.addFile, World.removeFile, ffmpegWorld]
    · rw [hw]
      constructor
      · intro v hv
        simp [World.log, World.addFile, World.removeFile, ffmpegWorld, World.updateVideo] at hv
        refine ⟨id, video, contentType, tempName, a, hG, hF, hT, hp, ?_, hput, hv, ?_⟩
        · rw [hf]; rfl
        · rw [hv]
          simp [World.log, World.addFile, World.removeFile, ffmpegWorld, World.updateVideo]
      · rintro (⟨e, he⟩ | ⟨left, hl⟩ | hput')
        · rw [hp] at he
          cases he
        · rw [hf] at hl
          cases hl
        · rw [hput] at hput'
          cases hput'

/-- The sample request reaches `UpdateVideo`, so `updateVideo_follows_normalized_put`
applies to it. -/
theorem updateVideo_follows_normalized_put_witness :
    ∃ id video contentType tempName aspectRatio,
      ownerEnv.GetVideo = .ok video
        ∧ ownerEnv.FormFile = .ok contentType
        ∧ ownerEnv.CreateTemp = .ok tempName
        ∧ getVideoAspectRatio ownerEnv.ffprobe = .ok aspectRatio
        ∧ processVideoForFastStart ownerEnv.ffmpeg tempName = .ok (tempName ++ ".processing")
        ∧ ownerEnv.PutObjectErr = false
        ∧ ({ sampleVideo with
              VideoURL := some ("tubely-1,landscape/" ++ zeroToken ++ ".mp4") } : Video)
            = { video with VideoURL := some (sampleConfig.s3Bucket ++ "," ++
              objectKey aspectRatio (EncodeToString (randBytes ownerEnv)) contentType) }
        ∧ (handlerUploadVideo sampleConfig ownerEnv
            { files := [], videos := [sampleVideo], trace := [] }).2.trace =
          [ .GetVideo id, .CreateTemp tempName, .Copy tempName, .ffprobe tempName,
            .ffmpeg tempName (tempName ++ ".processing"),
            .Open (tempName ++ ".processing"),
            .PutObject sampleConfig.s3Bucket
              (objectKey aspectRatio (EncodeToString (randBytes ownerEnv)) contentType)
              (tempName ++ ".processing") "video/mp4",
            .UpdateVideo { sampleVideo with
              VideoURL := some ("tubely-1,landscape/" ++ zeroToken ++ ".mp4") },
            .Remove tempName ] :=
  (updateVideo_follows_normalized_put sampleConfig ownerEnv [] [sampleVideo]).1
    { sampleVideo with VideoURL := some ("tubely-1,landscape/" ++ zeroToken ++ ".mp4") }
    (by decide!)


/-! ## The persisted reference -/

/-- C6, as stated, fails: with the bucket string `my,bucket` the decoded pair is
(`my`, `bucket`), and for the object key the handler produces from a declared
`video/mp4; title="a,b"` element 1 of the split is only the part of the key before its
comma. -/
theorem videoURL_round_trip_breaks_on_comma :
    (stringsSplit ("my,bucket" ++ "," ++ objectKey "16:9" zeroToken "video/mp4") ',').get? 0
        = some "my"
      ∧ (stringsSplit ("my,bucket" ++ "," ++ objectKey "16:9" zeroToken "video/mp4") ',').get? 1
        = some "bucket"
      ∧ Event.UpdateVideo { sampleVideo with VideoURL := some (
            "tubely-1" ++ "," ++ "landscape/" ++ zeroToken ++ ".mp4; title=\"a,b\"") }
        ∈ (handlerUploadVideo sampleConfig
            { ownerEnv with FormFile := .ok "video/mp4; title=\"a,b\"" } sampleWorld).2.trace
      ∧ (stringsSplit
            ("tubely-1" ++ "," ++ "landscape/" ++ zeroToken ++ ".mp4; title=\"a,b\"") ',').get? 1
        = some ("landscape/" ++ zeroToken ++ ".mp4; title=\"a")
      ∧ "landscape/" ++ zeroToken ++ ".mp4; title=\"a"
        ≠ "landscape/" ++ zeroToken ++ ".mp4; title=\"a,b\"" := by
  decide!

/-- C6, amended: for a bucket string without a comma and an object key the handler
builds from a declared Content-Type without a comma, splitting `{bucket},{key}` on `,`
gives exactly the two elements bucket and key, and `dbVideoToSignedVideo` returns what
the signer gives for that bucket, that key and an expiry of 60 minutes. -/
theorem videoURL_round_trip (presign : String → String → ℕ → Except Err String)
    (video : Video) (bucket aspectRatio contentType : String) (bytes : List ℕ)
    (hb : ',' ∉ bucket.toList) (hc : ',' ∉ contentType.toList) :
    stringsSplit
        (bucket ++ "," ++ objectKey aspectRatio (EncodeToString bytes) contentType) ','
        = [bucket, objectKey aspectRatio (EncodeToString bytes) contentType]
      ∧ dbVideoToSignedVideo presign { video with VideoURL := some (
            bucket ++ "," ++ objectKey aspectRatio (EncodeToString bytes) contentType) }
        = (match generatePresignedURL presign bucket
              (objectKey aspectRatio (EncodeToString bytes) contentType) (Minute * 60) with
          | .error e => .err e
          | .ok presignedUrl => .ok { video with VideoURL := some presignedUrl })
      ∧ Minute * 60 = 60 * 60 * 1000000000 := by
  have hs := stringsSplit_pair bucket _ hb (objectKey_no_comma aspectRatio contentType bytes hc)
  refine ⟨hs, ?_, by decide⟩
  simp only [dbVideoToSignedVideo, hs]
  rfl

/-- The hypotheses of `videoURL_round_trip` hold for the sample bucket and the declared
type `video/mp4`. -/
theorem videoURL_round_trip_witness :
    stringsSplit
        ("tubely-1" ++ "," ++ objectKey "16:9" (EncodeToString (randBytes ownerEnv)) "video/mp4")
        ','
        = ["tubely-1", objectKey "16:9" (EncodeToString (randBytes ownerEnv)) "video/mp4"]
      ∧ dbVideoToSignedVideo samplePresign { sampleVideo with VideoURL := some ("tubely-1" ++ "," ++
              objectKey "16:9" (EncodeToString (randBytes ownerEnv)) "video/mp4") }
        = (match generatePresignedURL samplePresign "tubely-1"
              (objectKey "16:9" (EncodeToString (randBytes ownerEnv)) "video/mp4")
              (Minute * 60) with
          | .error e => .err e
          | .ok presignedUrl => .ok { sampleVideo with VideoURL := some presignedUrl })
      ∧ Minute * 60 = 60 * 60 * 1000000000 :=
  videoURL_round_trip samplePresign sampleVideo "tubely-1" "16:9" "video/mp4"
    (randBytes ownerEnv) (by decide) (by decide)

/-! ## The thumbnail handler -/

/-- C8: when the declared Content-Type of a thumbnail request parses to a media type
other than `image/jpeg` and `image/png`, `handlerUploadThumbnail` answers with an error
status (400, 401 or 500, never 200), creates no file, and does not call `UpdateVideo`;
the file system and the metadata store are as before. When the request is
authenticated, the record is fetched and the form is parsed, the answer is 401
`Media type not allowed`. -/
theorem thumbnail_rejects_other_media_types (cfg : apiConfig) (env : Env)
    (files : List String) (videos : List Video) (contentType mediaType : String)
    (hF : env.FormFile = .ok contentType)
    (hP : ParseMediaType env.mediaParamsErr contentType = .ok mediaType)
    (hj : mediaType ≠ "image/jpeg") (hp : mediaType ≠ "image/png") :
    (∃ code msg,
        (handlerUploadThumbnail cfg env
          { files := files, videos := videos, trace := [] }).1 = .error code msg
          ∧ code ∈ [StatusBadRequest, StatusUnauthorized, StatusInternalServerError]
          ∧ code ≠ StatusOK)
      ∧ (handlerUploadThumbnail cfg env
          { files := files, videos := videos, trace := [] }).2.files = files
      ∧ (handlerUploadThumbnail cfg env
          { files := files, videos := videos, trace := [] }).2.videos = videos
      ∧ (∀ name, Event.Create name
          ∉ (handlerUploadThumbnail cfg env
            { files := files, videos := videos, trace := [] }).2.trace)
      ∧ (∀ v, Event.UpdateVideo v
          ∉ (handlerUploadThumbnail cfg env
            { files := files, videos := videos, trace := [] }).2.trace)
      ∧ ((∃ id tok userID video, env.uuidParse = .ok id ∧ env.GetBearerToken = .ok tok
            ∧ env.ValidateJWT = .ok userID ∧ env.GetVideo = .ok video
            ∧ env.ParseMultipartFormErr = false) →
          (handlerUploadThumbnail cfg env
            { files := files, videos := videos, trace := [] }).1
            = .error StatusUnauthorized "Media type not allowed") := by
  unfold handlerUploadThumbnail
  cases h1 : env.uuidParse with
  | error e => simp [StatusBadRequest, StatusUnauthorized, StatusInternalServerError, StatusOK]
  | ok id =>
    cases h2 : env.GetBearerToken with
    | error e =>
      simp [StatusBadRequest, StatusUnauthorized, StatusInternalServerError, StatusOK]
    | ok tok =>
      cases h3 : env.ValidateJWT with
      | error e =>
        simp [StatusBadRequest, StatusUnauthorized, StatusInternalServerError, StatusOK]
      | ok userID =>
        cases h4 : env.GetVideo with
        | error e =>
          simp [StatusBadRequest, StatusUnauthorized, StatusInternalServerError, StatusOK,
            World.log]
        | ok video =>
          cases h5 : env.ParseMultipartFormErr with
          | true =>
            simp [StatusBadRequest, StatusUnauthorized, StatusInternalServerError, StatusOK,
              World.log]
          | false =>
            simp [hF, hP, hj, hp, StatusBadRequest, StatusUnauthorized,
              StatusInternalServerError, StatusOK, World.log]

/-- The hypotheses of `thumbnail_rejects_other_media_types` hold for a declared
`image/gif`. -/
theorem thumbnail_rejects_other_media_types_witness :
    (handlerUploadThumbnail sampleConfig { ownerEnv with FormFile := .ok "image/gif" }
        { files := [], videos := [sampleVideo], trace := [] }).1
      = .error StatusUnauthorized "Media type not allowed" :=
  (thumbnail_rejects_other_media_types sampleConfig
    { ownerEnv with FormFile := .ok "image/gif" } [] [sampleVideo] "image/gif" "image/gif"
    (by decide) (by decide) (by decide) (by decide)).2.2.2.2.2
    ⟨7, "token", 1, sampleVideo, by decide, by decide, by decide, by decide, by decide⟩


/-! ## What the handlers do not look at, and what they clean up -/

/-- Neither handler depends on the identity `ValidateJWT` resolves: two requests that
differ only in the caller get the same response and leave the same world. -/
theorem handlers_ignore_the_caller (cfg : apiConfig) (env : Env) (w : World) (a b : ℕ) :
    handlerUploadVideo cfg { env with ValidateJWT := .ok a } w
        = handlerUploadVideo cfg { env with ValidateJWT := .ok b } w
      ∧ handlerUploadThumbnail cfg { env with ValidateJWT := .ok a } w
        = handlerUploadThumbnail cfg { env with ValidateJWT := .ok b } w :=
  ⟨rfl, rfl⟩

/-- The raw staged file does not outlive `handlerUploadVideo`: either no file was staged
and the file system is as before, or the path `os.CreateTemp` returned is gone. -/
theorem raw_staged_file_is_removed (cfg : apiConfig) (env : Env) (w : World) :
    (handlerUploadVideo cfg env w).2.files = w.files
      ∨ ∃ tempName, env.CreateTemp = .ok tempName
          ∧ tempName ∉ (handlerUploadVideo cfg env w).2.files := by
  rcases handlerUploadVideo_cases cfg env w
    with ⟨code, msg, _, hr | ⟨id, hr⟩⟩ | ⟨id, video, contentType, tempName, _, _, _, _, hT, hr⟩
  · exact Or.inl (by rw [hr])
  · exact Or.inl (by rw [hr]; rfl)
  · refine Or.inr ⟨tempName, hT, ?_⟩
    rw [hr]
    simp [World.removeFile]


/-! ## Concrete runs -/

/-- C2: a caller authenticated as user 2 uploads onto the record of user 1 and is not
rejected: both handlers answer 200, the video handler stages a file, puts an object
and calls `UpdateVideo`, the thumbnail handler creates a file and calls `UpdateVideo`. -/
theorem ownership_mismatch_is_not_rejected :
    sampleVideo.UserID = 1
      ∧ (handlerUploadVideo sampleConfig { ownerEnv with ValidateJWT := .ok 2 }
          sampleWorld).1.status = some StatusOK
      ∧ (handlerUploadVideo sampleConfig { ownerEnv with ValidateJWT := .ok 2 }
          sampleWorld).2.trace =
        [ .GetVideo 7,
          .CreateTemp "/tmp/tubely-upload.mp4123",
          .Copy "/tmp/tubely-upload.mp4123",
          .ffprobe "/tmp/tubely-upload.mp4123",
          .ffmpeg "/tmp/tubely-upload.mp4123" "/tmp/tubely-upload.mp4123.processing",
          .Open "/tmp/tubely-upload.mp4123.processing",
          .PutObject "tubely-1" ("landscape/" ++ zeroToken ++ ".mp4")
            "/tmp/tubely-upload.mp4123.processing" "video/mp4",
          .UpdateVideo { sampleVideo with
            VideoURL := some ("tubely-1,landscape/" ++ zeroToken ++ ".mp4") },
          .Remove "/tmp/tubely-upload.mp4123" ]
      ∧ (handlerUploadThumbnail sampleConfig
          { ownerEnv with ValidateJWT := .ok 2, FormFile := .ok "image/png" }
          sampleWorld).1.status = some StatusOK
      ∧ (handlerUploadThumbnail sampleConfig
          { ownerEnv with ValidateJWT := .ok 2, FormFile := .ok "image/png" }
          sampleWorld).2.trace =
        [ .GetVideo 7,
          .Create ("assets/" ++ zeroToken ++ ".png"),
          .Copy ("assets/" ++ zeroToken ++ ".png"),
          .UpdateVideo { sampleVideo with
            ThumbnailURL := some ("http://localhost:8091/assets/" ++ zeroToken ++ ".png") } ] := by
  decide!

/-- C4: after a successful run of `handlerUploadVideo` the raw staged file is gone but
the normalized file `<raw path>.processing` is still on the file system. -/
theorem normalized_file_is_left_behind :
    (handlerUploadVideo sampleConfig ownerEnv sampleWorld).1.status = some StatusOK
      ∧ (handlerUploadVideo sampleConfig ownerEnv sampleWorld).2.files =
        ["/tmp/tubely-upload.mp4123.processing"] := by
  decide!

/-- C7: `io.Copy`, `rand.Read` and `UpdateVideo` all return an error, the metadata
store keeps the old record, and `handlerUploadVideo` still answers 200. -/
theorem ignored_errors_still_answer_ok :
    (handlerUploadVideo sampleConfig
        { ownerEnv with CopyErr := true, randReadErr := true, UpdateVideoErr := true }
        sampleWorld).1.status = some StatusOK
      ∧ (handlerUploadVideo sampleConfig
        { ownerEnv with CopyErr := true, randReadErr := true, UpdateVideoErr := true }
        sampleWorld).2.videos = [sampleVideo] := by
  decide!

/-- C9: a probe result whose only stream has no pixel dimensions (width 0, height 0)
is not rejected: `getVideoAspectRatio` returns the label `other` and no error, and
`handlerUploadVideo` normalizes the file and stores it under `other/`; an empty
stream list is rejected. -/
theorem zero_dimensions_are_labelled_other :
    getVideoAspectRatio (.parsed [{ Width := 0, Height := 0 }]) = .ok "other"
      ∧ getVideoAspectRatio (.parsed []) = .error "unable to process video"
      ∧ (handlerUploadVideo sampleConfig
          { ownerEnv with ffprobe := .parsed [{ Width := 0, Height := 0 }] }
          sampleWorld).1.status = some StatusOK
      ∧ Event.PutObject "tubely-1" ("other/" ++ zeroToken ++ ".mp4")
          "/tmp/tubely-upload.mp4123.processing" "video/mp4"
        ∈ (handlerUploadVideo sampleConfig
          { ownerEnv with ffprobe := .parsed [{ Width := 0, Height := 0 }] }
          sampleWorld).2.trace := by
  decide!

/-- C10: `dbVideoToSignedVideo` panics on a `VideoURL` without a comma (a plain URL, the
empty string): the split result has one element and index 1 is out of range. With an
absent `VideoURL` the record is returned unchanged. -/
theorem dbVideoToSignedVideo_panics_without_comma :
    stringsSplit "https://example.com/v.mp4" ',' = ["https://example.com/v.mp4"]
      ∧ dbVideoToSignedVideo samplePresign
          { sampleVideo with VideoURL := some "https://example.com/v.mp4" }
        = .panic "index out of range"
      ∧ stringsSplit "" ',' = [""]
      ∧ dbVideoToSignedVideo samplePresign { sampleVideo with VideoURL := some "" }
        = .panic "index out of range"
      ∧ dbVideoToSignedVideo samplePresign sampleVideo = .ok sampleVideo := by
  decide!

end Tubely
